import Mathlib

/-!
# codec.cpp: frame repacker, format-change handler and buffer pump

A shallow embedding of `src/codec.cpp`.

* Byte buffers (`char *`) are lists of byte values (`List Nat`); an index into a
  buffer is an offset from its base pointer.
* The `int` geometry values (`width`, `height`, `stride`, `sliceHeight`) are
  natural numbers: the development covers the non-negative range. `int` has 32
  bits. Signed overflow is undefined behaviour in C, so an `int` expression of
  the frame repacker whose exact value exceeds `INT_MAX` ends the call without
  a result (`none`); what a particular compiler does then is not modelled.
* `malloc` is taken to succeed. The bytes of a fresh block are indeterminate in
  C; the model fills the block with zeros, and the theorem on the written
  offsets shows where the returned bytes do not depend on that choice.
* The extractor, the codecs and the sink are outside the file. What they answer
  during one iteration of the pump loop is an `Oracle`; a run of a piece of
  `decode` is the list of calls it makes together with the state it reaches, or
  no state when a `CHECK` fails. The loop itself does not end on its own, so a
  run of it is given by the list of oracles of its iterations.
* A track of the pump is named by its position in `stateByTrack`.
-/

namespace Codec

/-! ## Frame repacker (`PackYUV420`, codec.cpp lines 84-102) -/

/-- The call `memcpy(dst + d, src + s, n)`: the state of `dst` after the first `n`
bytes have been copied, byte `k` of the copy being `dst[d + k] = src[s + k]`.
A `char *` carries no length: a read past the end of the list `src` yields the
byte `0`, and `dst` keeps its allocated length. -/
def memcpy (dst : List Nat) (d : Nat) (src : List Nat) (s : Nat) : Nat → List Nat
  | 0 => dst
  | n + 1 => (memcpy dst d src s n).set (d + n) (src.getD (s + n) 0)

/-- The offsets into `dst` written by `memcpy(dst + d, src + s, n)`, in the order
of the copy: `d, d + 1, ..., d + n - 1`. -/
def memcpyWrites (d : Nat) : Nat → List Nat
  | 0 => []
  | n + 1 => memcpyWrites d n ++ [d + n]

/-- The largest value of the 32-bit `int` of the platforms the file is built for. -/
def INT_MAX : Nat := 2147483647

/-- The value of a non-negative `int` expression whose exact value is `n`: `n` when
it fits, and no value when it exceeds `INT_MAX` (signed overflow). -/
def fitInt (n : Nat) : Option Nat :=
  if n ≤ INT_MAX then some n else none

/-- The state of a call of `PackYUV420`: the buffer `dst`, and the offsets into
`dst` written so far by line 89 (luma), line 97 (U) and line 98 (V), an offset
written twice being listed twice. -/
structure Packing where
  dst : List Nat
  yWrites : List Nat
  uWrites : List Nat
  vWrites : List Nat
  deriving DecidableEq, Repr

/-- The luma loop of `PackYUV420` (lines 88-90): the state after the iterations
`i = 0 .. rows - 1` of `memcpy(dst + i * width, src + i * stride, width)`; no
state when one of the `int` products `i * width`, `i * stride` overflows. -/
def copyY (width stride : Nat) (src : List Nat) : Nat → Packing → Option Packing
  | 0, p => some p
  | i + 1, p => do
    let p ← copyY width stride src i p
    let d ← fitInt (i * width)
    let s ← fitInt (i * stride)
    pure { p with dst := memcpy p.dst d src s width,
                  yWrites := p.yWrites ++ memcpyWrites d width }

/-- The chroma loop of `PackYUV420` (lines 96-99): the state after the iterations
`i = 0 .. rows - 1`, each copying one row of U and then one row of V; no state
when one of the `int` products `i * (width / 2)`, `i * (stride / 2)` overflows.
The sums with the offsets are pointer arithmetic. -/
def copyUV (width stride u_src_offset v_src_offset u_dst_offset v_dst_offset : Nat)
    (src : List Nat) : Nat → Packing → Option Packing
  | 0, p => some p
  | i + 1, p => do
    let p ← copyUV width stride u_src_offset v_src_offset u_dst_offset v_dst_offset src i p
    let d ← fitInt (i * (width / 2))
    let s ← fitInt (i * (stride / 2))
    let p := { p with dst := memcpy p.dst (u_dst_offset + d) src (u_src_offset + s) (width / 2),
                      uWrites := p.uWrites ++ memcpyWrites (u_dst_offset + d) (width / 2) }
    pure { p with dst := memcpy p.dst (v_dst_offset + d) src (v_src_offset + s) (width / 2),
                  vWrites := p.vWrites ++ memcpyWrites (v_dst_offset + d) (width / 2) }

/-- Lines 87-101 of `PackYUV420`, run on the block `dst` that `malloc` has
returned. -/
def packInto (dst : List Nat) (width height stride sliceHeight : Nat) (src : List Nat) :
    Option Packing := do
  -- Y copy.
  let p ← copyY width stride src height
    { dst := dst, yWrites := [], uWrites := [], vWrites := [] }
  -- U and V copy.
  let u_src_offset ← fitInt (stride * sliceHeight)
  let v_src_offset ← fitInt (u_src_offset + u_src_offset / 4)
  let u_dst_offset ← fitInt (width * height)
  let v_dst_offset ← fitInt (u_dst_offset + u_dst_offset / 4)
  copyUV width stride u_src_offset v_src_offset u_dst_offset v_dst_offset src (height / 2) p

/-- A call `PackYUV420(width, height, stride, sliceHeight, src)` with its writes
logged: `malloc(width * height * 3 / 2)` is a fresh block of that length, filled
with zeros; no state when an `int` expression overflows. -/
def PackYUV420Log (width height stride sliceHeight : Nat) (src : List Nat) :
    Option Packing := do
  let area ← fitInt (width * height)
  let area3 ← fitInt (area * 3)
  packInto (List.replicate (area3 / 2) 0) width height stride sliceHeight src

/-- The function `PackYUV420(width, height, stride, sliceHeight, src)`: the buffer
it returns, if the call has defined behaviour. -/
def PackYUV420 (width height stride sliceHeight : Nat) (src : List Nat) :
    Option (List Nat) :=
  (PackYUV420Log width height stride sliceHeight src).map (fun p => p.dst)

/-! ### The repacker without the overflow checks

The functions below are what the loops compute when every `int` expression fits;
the lemmas relate them to the functions above. -/

/-- The buffer after `rows` iterations of the luma loop, the products taken
exactly. -/
def lumaRows (width stride : Nat) (src : List Nat) : Nat → List Nat → List Nat
  | 0, dst => dst
  | i + 1, dst => memcpy (lumaRows width stride src i dst) (i * width) src (i * stride) width

/-- The buffer after `rows` iterations of the chroma loop, the products taken
exactly. -/
def chromaRows (width stride u_src_offset v_src_offset u_dst_offset v_dst_offset : Nat)
    (src : List Nat) : Nat → List Nat → List Nat
  | 0, dst => dst
  | i + 1, dst =>
    let dst1 :=
      chromaRows width stride u_src_offset v_src_offset u_dst_offset v_dst_offset src i dst
    let dst2 := memcpy dst1 (u_dst_offset + i * (width / 2)) src
      (u_src_offset + i * (stride / 2)) (width / 2)
    memcpy dst2 (v_dst_offset + i * (width / 2)) src
      (v_src_offset + i * (stride / 2)) (width / 2)

/-- The buffer the two loops leave in the block `dst`, the products and offsets
taken exactly. -/
def packedInto (dst : List Nat) (width height stride sliceHeight : Nat) (src : List Nat) :
    List Nat :=
  chromaRows width stride (stride * sliceHeight)
    (stride * sliceHeight + stride * sliceHeight / 4) (width * height)
    (width * height + width * height / 4) src (height / 2)
    (lumaRows width stride src height dst)

/-- The buffer of `PackYUV420` when every `int` expression fits. -/
def packed (width height stride sliceHeight : Nat) (src : List Nat) : List Nat :=
  packedInto (List.replicate (width * height * 3 / 2) 0) width height stride sliceHeight src

/-- The offsets written by `rows` iterations of the luma loop, the products taken
exactly. -/
def lumaOffsets (width : Nat) : Nat → List Nat
  | 0 => []
  | i + 1 => lumaOffsets width i ++ memcpyWrites (i * width) width

/-- The offsets written by the U copy in `rows` iterations of the chroma loop,
the products taken exactly. -/
def uOffsets (width u_dst_offset : Nat) : Nat → List Nat
  | 0 => []
  | i + 1 =>
    uOffsets width u_dst_offset i ++ memcpyWrites (u_dst_offset + i * (width / 2)) (width / 2)

/-- The offsets written by the V copy in `rows` iterations of the chroma loop,
the products taken exactly. -/
def vOffsets (width v_dst_offset : Nat) : Nat → List Nat
  | 0 => []
  | i + 1 =>
    vOffsets width v_dst_offset i ++ memcpyWrites (v_dst_offset + i * (width / 2)) (width / 2)

/-- One `malloc`ed block: its bytes and whether it is still allocated. -/
structure Block where
  bytes : List Nat
  live : Bool
  deriving DecidableEq, Repr

/-- The blocks allocated so far; a pointer is the position of its block. -/
abbrev Heap := List Block

/-- The call `malloc(size)`: a fresh live block, and the pointer to it. -/
def malloc (h : Heap) (size : Nat) : Heap × Nat :=
  (h ++ [{ bytes := List.replicate size 0, live := true }], h.length)

/-- The call `free(p)`: the block stays where it is and is no longer live. -/
def free (h : Heap) (p : Nat) : Heap :=
  h.modify (fun b => { b with live := false }) p

/-- The bytes a pointer refers to; `none` when the block has been released. -/
def deref (h : Heap) (p : Nat) : Option (List Nat) :=
  match h[p]? with
  | some b => if b.live then some b.bytes else none
  | none => none

/-- Overwrite the bytes of block `p`. -/
def store (h : Heap) (p : Nat) (bytes : List Nat) : Heap :=
  h.modify (fun b => { b with bytes := bytes }) p

/-! ## Geometry cache and format-change handler (lines 123-127, 390-405) -/

/-- The locals `frameWidth`, `frameHeight`, `frameColorFormat`, `frameStride`,
`frameSliceHeight` of `decode`. -/
structure Geometry where
  frameWidth : Nat
  frameHeight : Nat
  frameColorFormat : Nat
  frameStride : Nat
  frameSliceHeight : Nat
  deriving DecidableEq, Repr

/-- The initial values of the geometry locals (lines 123-127). -/
def Geometry.init : Geometry :=
  { frameWidth := 0, frameHeight := 0, frameColorFormat := 0,
    frameStride := 0, frameSliceHeight := 0 }

/-- The integer entries of an output-format `AMessage` that `decode` looks up:
"width", "height", "color-format", "stride", "slice-height". An entry may be
absent. -/
structure AMessage where
  width : Option Nat
  height : Option Nat
  colorFormat : Option Nat
  stride : Option Nat
  sliceHeight : Option Nat
  deriving DecidableEq, Repr

/-- The call `format->findInt32(name, &var)`: whether the entry is there, and the
value of `var` afterwards (unchanged when it is not). -/
def findInt32 (entry : Option Nat) (var : Nat) : Bool × Nat :=
  match entry with
  | some v => (true, v)
  | none => (false, var)

/-- The geometry updates of the `INFO_FORMAT_CHANGED` branch (lines 393-405). -/
def formatChanged (g : Geometry) (format : AMessage) : Geometry :=
  let frameWidth := (findInt32 format.width g.frameWidth).2
  let frameHeight := (findInt32 format.height g.frameHeight).2
  let frameColorFormat := (findInt32 format.colorFormat g.frameColorFormat).2
  let foundStride := findInt32 format.stride g.frameStride
  let frameStride := if !foundStride.1 then frameWidth else foundStride.2
  let foundSliceHeight := findInt32 format.sliceHeight g.frameSliceHeight
  let frameSliceHeight := if !foundSliceHeight.1 then frameHeight else foundSliceHeight.2
  let frameStride := if frameWidth < frameStride then frameStride else frameWidth
  let frameSliceHeight :=
    if frameHeight < frameSliceHeight then frameSliceHeight else frameHeight
  { frameWidth := frameWidth, frameHeight := frameHeight,
    frameColorFormat := frameColorFormat, frameStride := frameStride,
    frameSliceHeight := frameSliceHeight }

/-! ## Frame-ready path (lines 308-342) -/

/-- The frame handed to `opengl_manager_push_data` for an output buffer whose
bytes are `base`, with the reported `offset` and `size`. The result is `none`
when the bytes of the frame were read through a pointer to released storage (or
`PackYUV420` has no result). -/
def framePath (g : Geometry) (base : List Nat) (offset size : Nat) : Option (List Nat) :=
  -- char *frame = (char *)malloc(size);
  let (h, frame) := malloc [] size
  -- char *data = (char *)buffer->base() + offset;
  let data := base.drop offset
  -- memcpy(frame, data, size);
  let h := store h frame (memcpy (List.replicate size 0) 0 data 0 size)
  let writeLength :=
    if g.frameWidth * g.frameHeight * 3 / 2 < size then g.frameWidth * g.frameHeight * 3 / 2
    else size
  if writeLength < size ∧
      (g.frameStride > g.frameWidth ∨ g.frameSliceHeight > g.frameHeight) then
    -- free(frame);
    let h := free h frame
    -- frame = PackYUV420(frameWidth, frameHeight, frameStride, frameSliceHeight, frame);
    (deref h frame).bind
      (PackYUV420 g.frameWidth g.frameHeight g.frameStride g.frameSliceHeight)
  else
    deref h frame

/-! ## Track selection (lines 135-183) -/

/-- The fields of `struct CodecState` that `decode` computes with. The codec handle
and the buffer vectors belong to the codec; what the codec answers is supplied by
an `Oracle` below. -/
structure CodecState where
  mSignalledInputEOS : Bool
  mSawOutputEOS : Bool
  mNumBuffersDecoded : Nat
  mNumBytesDecoded : Nat
  mIsAudio : Bool
  deriving DecidableEq, Repr

/-- Whether `strncasecmp(s1, s2, n)` returns `0`: the first `n` characters agree
up to ASCII case, a string that ends early being different from a longer one. -/
def strncasecmp (s1 s2 : List Char) : Nat → Bool
  | 0 => true
  | n + 1 =>
    match s1, s2 with
    | [], [] => true
    | c1 :: r1, c2 :: r2 => c1.toLower == c2.toLower && strncasecmp r1 r2 n
    | _, _ => false

/-- The track loop of `decode` (lines 137-183) from track `i` on, over the mime
strings of the remaining tracks: the `stateByTrack` vector it builds. A track
reaches `selectTrack(i)` and `stateByTrack.add(i, CodecState())` only when the
loop body is not left by `continue`. -/
def selectLoop (useAudio useVideo : Bool) :
    List (List Char) → Nat → Bool → Bool → List (Nat × CodecState) → List (Nat × CodecState)
  | [], _, _, _, stateByTrack => stateByTrack
  | mime :: rest, i, haveAudio, haveVideo, stateByTrack =>
    let isAudio := strncasecmp mime ['a', 'u', 'd', 'i', 'o', '/'] 6
    let isVideo := strncasecmp mime ['v', 'i', 'd', 'e', 'o', '/'] 6
    if useAudio && !haveAudio && isAudio then
      -- haveAudio = true; continue;
      selectLoop useAudio useVideo rest (i + 1) true haveVideo stateByTrack
    else if useVideo && !haveVideo && isVideo then
      -- haveVideo = true; the track is selected and gets a state
      selectLoop useAudio useVideo rest (i + 1) haveAudio true
        (stateByTrack ++ [(i, { mSignalledInputEOS := false, mSawOutputEOS := false,
                                mNumBuffersDecoded := 0, mNumBytesDecoded := 0,
                                mIsAudio := isAudio })])
    else
      -- continue;
      selectLoop useAudio useVideo rest (i + 1) haveAudio haveVideo stateByTrack

/-- The tracks `decode` selects, with their initial states, for the mime strings
of the extractor's tracks `0, 1, ...`. -/
def selectTracks (useAudio useVideo : Bool) (mimes : List (List Char)) :
    List (Nat × CodecState) :=
  selectLoop useAudio useVideo mimes 0 false false []

/-! ## Buffer pump (lines 204-423) -/

/-- The `status_t` results `decode` tells apart: `OK`, `-EAGAIN`,
`INFO_OUTPUT_BUFFERS_CHANGED`, `INFO_FORMAT_CHANGED`, and any further code. Their
numeric values are in headers outside this file; only that they differ is used. -/
inductive status_t where
  | OK
  | EAGAIN
  | INFO_OUTPUT_BUFFERS_CHANGED
  | INFO_FORMAT_CHANGED
  | other (code : Int)
  deriving DecidableEq, Repr

/-- What `dequeueOutputBuffer` reports besides its status: the bytes of
`mOutBuffers.itemAt(index)` from `base()` on, `offset`, `size`, and whether
`flags` has `BUFFER_FLAG_EOS`. -/
structure OutputInfo where
  base : List Nat
  offset : Nat
  size : Nat
  eos : Bool
  deriving DecidableEq, Repr

/-- The answers of the extractor and of the codecs during one iteration of the
pump loop. A codec is named by the position of its track in `stateByTrack`; each
primitive is called at most once per track and iteration. `releaseOutputBuffer`
is the answer of whichever of `releaseOutputBuffer` and
`renderOutputBufferAndRelease` the configuration calls. -/
structure Oracle where
  getSampleTrackIndex : status_t
  trackIndex : Nat
  dequeueInputBuffer : Nat → status_t
  readSampleData : status_t
  getSampleTime : status_t
  queueInputBuffer : Nat → status_t
  dequeueOutputBuffer : Nat → status_t
  outputInfo : Nat → OutputInfo
  releaseOutputBuffer : Nat → status_t
  getOutputBuffers : Nat → status_t
  getOutputFormat : Nat → status_t
  outputFormat : Nat → AMessage

/-- The arguments `surface != NULL`, `renderSurface`, `useTimestamp` of `decode`. -/
structure Config where
  surface : Bool
  renderSurface : Bool
  useTimestamp : Bool
  deriving DecidableEq, Repr

/-- One call `decode` makes on the extractor, a codec or the sink, with the answer
it got. `track` is the position of the track in `stateByTrack`. -/
inductive Call where
  | getSampleTrackIndex (err : status_t)
  | /-- `stateByTrack.editValueFor(trackIndex)` on a key that is not there. -/
    editValueFor (trackIndex : Nat)
  | dequeueInputBuffer (track : Nat) (err : status_t)
  | readSampleData (err : status_t)
  | getSampleTime (err : status_t)
  | /-- `eos`: the buffer is queued with `BUFFER_FLAG_EOS`. -/
    queueInputBuffer (track : Nat) (eos : Bool) (err : status_t)
  | advance
  | dequeueOutputBuffer (track : Nat) (err : status_t) (size : Nat) (eos : Bool)
  | opengl_manager_push_data (frame : Option (List Nat))
  | /-- `render`: the call is `renderOutputBufferAndRelease`. -/
    releaseOutputBuffer (track : Nat) (render : Bool) (err : status_t)
  | getOutputBuffers (track : Nat) (err : status_t)
  | getOutputFormat (track : Nat) (err : status_t)
  deriving DecidableEq, Repr

/-- A piece of `decode` run against an oracle: the calls made, in order, and the
value reached, `none` when a `CHECK` failed (the process aborts there). -/
structure Run (α : Type) where
  calls : List Call
  result : Option α

/-- Sequencing: nothing runs after a failed `CHECK`. -/
def Run.bind {α β : Type} (r : Run α) (f : α → Run β) : Run β :=
  match r.result with
  | none => { calls := r.calls, result := none }
  | some a => { calls := r.calls ++ (f a).calls, result := (f a).result }

instance : Monad Run where
  pure a := { calls := [], result := some a }
  bind := Run.bind

/-- Record one call. -/
def call (c : Call) : Run Unit := { calls := [c], result := some () }

/-- The macro `CHECK_EQ(err, expected)`. -/
def CHECK_EQ (err expected : status_t) : Run Unit :=
  { calls := [], result := if err = expected then some () else none }

/-- The state of the pump loop: the vector `stateByTrack` (key, state), the flag
`sawInputEOS` and the geometry locals. -/
structure Pump where
  stateByTrack : List (Nat × CodecState)
  sawInputEOS : Bool
  geom : Geometry
  deriving DecidableEq, Repr

/-- Assignment through the pointer `state = &stateByTrack.editValueAt(i)`. -/
def Pump.setState (s : Pump) (i : Nat) (key : Nat) (state : CodecState) : Pump :=
  { s with stateByTrack := s.stateByTrack.set i (key, state) }

/-- The position of `key` in `stateByTrack` (`indexOfKey`). -/
def indexOfKey (stateByTrack : List (Nat × CodecState)) (key : Nat) : Option Nat :=
  stateByTrack.findIdx? (fun p => p.1 == key)

/-- The branch `if (!sawInputEOS)` of the loop body (lines 207-247): feed the next
sample to the codec of its track. `editValueFor` on a missing key is fatal. -/
def feedSample (o : Oracle) (s : Pump) : Run Pump := do
  let err := o.getSampleTrackIndex
  call (.getSampleTrackIndex err)
  if err ≠ .OK then
    pure { s with sawInputEOS := true }
  else
    match indexOfKey s.stateByTrack o.trackIndex with
    | none => do
      call (.editValueFor o.trackIndex)
      { calls := [], result := none }
    | some i => do
      let err := o.dequeueInputBuffer i
      call (.dequeueInputBuffer i err)
      if err = .OK then do
        let err := o.readSampleData
        call (.readSampleData err)
        CHECK_EQ err .OK
        let err := o.getSampleTime
        call (.getSampleTime err)
        CHECK_EQ err .OK
        let err := o.queueInputBuffer i
        call (.queueInputBuffer i false err)
        CHECK_EQ err .OK
        call .advance
        pure s
      else do
        CHECK_EQ err .EAGAIN
        pure s

/-- The body of the loop at lines 249-274 for position `i`: signal input EOS. -/
def signalInputEOS (o : Oracle) (i : Nat) (s : Pump) : Run Pump :=
  match s.stateByTrack[i]? with
  | none => pure s
  | some (key, state) =>
    if !state.mSignalledInputEOS then do
      let err := o.dequeueInputBuffer i
      call (.dequeueInputBuffer i err)
      if err = .OK then do
        let err := o.queueInputBuffer i
        call (.queueInputBuffer i true err)
        CHECK_EQ err .OK
        pure (s.setState i key { state with mSignalledInputEOS := true })
      else do
        CHECK_EQ err .EAGAIN
        pure s
    else
      pure s

/-- The body of the loop at lines 290-422 for position `i`: drain one output
event of the track. -/
def drainOutput (cfg : Config) (o : Oracle) (i : Nat) (s : Pump) : Run Pump :=
  match s.stateByTrack[i]? with
  | none => pure s
  | some (key, state) =>
    if state.mSawOutputEOS then
      pure s
    else do
      let err := o.dequeueOutputBuffer i
      let info := o.outputInfo i
      call (.dequeueOutputBuffer i err info.size info.eos)
      if err = .OK then do
        if info.size > 0 then
          call (.opengl_manager_push_data (framePath s.geom info.base info.offset info.size))
        let state := { state with
          mNumBuffersDecoded := state.mNumBuffersDecoded + 1,
          mNumBytesDecoded := state.mNumBytesDecoded + info.size }
        let err := o.releaseOutputBuffer i
        call (.releaseOutputBuffer i (!(!cfg.surface || !cfg.renderSurface)) err)
        CHECK_EQ err .OK
        if info.eos then
          pure (s.setState i key { state with mSawOutputEOS := true })
        else
          pure (s.setState i key state)
      else if err = .INFO_OUTPUT_BUFFERS_CHANGED then do
        let err := o.getOutputBuffers i
        call (.getOutputBuffers i err)
        CHECK_EQ err .OK
        pure s
      else if err = .INFO_FORMAT_CHANGED then do
        let err := o.getOutputFormat i
        call (.getOutputFormat i err)
        CHECK_EQ err .OK
        pure { s with geom := formatChanged s.geom (o.outputFormat i) }
      else do
        CHECK_EQ err .EAGAIN
        pure s

/-- A loop `for (size_t i = 0; i < n; ++i) body(i)`: the run of its first `n`
iterations. -/
def forTracks (body : Nat → Pump → Run Pump) : Nat → Pump → Run Pump
  | 0, s => pure s
  | n + 1, s => do
    let s ← forTracks body n s
    body n s

/-- The input phase of an iteration (lines 207-275): feed a sample while the
extractor has one, afterwards signal input EOS on every track in turn. -/
def inputPhase (o : Oracle) (s : Pump) : Run Pump :=
  if !s.sawInputEOS then feedSample o s
  else forTracks (signalInputEOS o) s.stateByTrack.length s

/-- The completion check (lines 277-284): every track has seen output EOS. -/
def sawOutputEOSOnAllTracks (s : Pump) : Bool :=
  s.stateByTrack.all (fun p => p.2.mSawOutputEOS)

/-- One iteration of the loop `for (;;)` (lines 206-423). The flag of the result
says whether the loop was left by `break` (output EOS seen on all tracks). -/
def iteration (cfg : Config) (o : Oracle) (s : Pump) : Run (Bool × Pump) := do
  let s ← inputPhase o s
  if sawOutputEOSOnAllTracks s then
    pure (true, s)
  else do
    let s ← forTracks (drainOutput cfg o) s.stateByTrack.length s
    pure (false, s)

/-- The pump loop run for at most as many iterations as oracles are given. The
flag of the result says whether the loop has ended (global completion). -/
def pumpLoop (cfg : Config) : List Oracle → Pump → Run (Bool × Pump)
  | [], s => pure (false, s)
  | o :: os, s => do
    let (done, s) ← iteration cfg o s
    if done then pure (true, s) else pumpLoop cfg os s

/-- The pump state `decode` starts the loop with: the selected tracks, no input
EOS seen, geometry all zero. -/
def Pump.init (stateByTrack : List (Nat × CodecState)) : Pump :=
  { stateByTrack := stateByTrack, sawInputEOS := false, geom := Geometry.init }

/-! ### Predicates on the calls of a run -/

/-- A call whose answer fails the `CHECK` that follows it. -/
def Call.fatal : Call → Bool
  | .editValueFor _ => true
  | .dequeueInputBuffer _ err => err ≠ .OK && err ≠ .EAGAIN
  | .readSampleData err => err ≠ .OK
  | .getSampleTime err => err ≠ .OK
  | .queueInputBuffer _ _ err => err ≠ .OK
  | .dequeueOutputBuffer _ err _ _ =>
    err ≠ .OK && err ≠ .INFO_OUTPUT_BUFFERS_CHANGED && err ≠ .INFO_FORMAT_CHANGED
      && err ≠ .EAGAIN
  | .releaseOutputBuffer _ _ err => err ≠ .OK
  | .getOutputBuffers _ err => err ≠ .OK
  | .getOutputFormat _ err => err ≠ .OK
  | _ => false

/-- A codec primitive answering outside its handled set: `dequeueInputBuffer`
other than `OK` or `-EAGAIN`; `dequeueOutputBuffer` other than `OK`,
`INFO_OUTPUT_BUFFERS_CHANGED`, `INFO_FORMAT_CHANGED` or `-EAGAIN`;
`queueInputBuffer`, `releaseOutputBuffer` / `renderOutputBufferAndRelease`,
`getOutputBuffers`, `getOutputFormat` other than `OK`. -/
def Call.codecUnhandled : Call → Bool
  | .dequeueInputBuffer _ err => err ≠ .OK && err ≠ .EAGAIN
  | .queueInputBuffer _ _ err => err ≠ .OK
  | .dequeueOutputBuffer _ err _ _ =>
    err ≠ .OK && err ≠ .INFO_OUTPUT_BUFFERS_CHANGED && err ≠ .INFO_FORMAT_CHANGED
      && err ≠ .EAGAIN
  | .releaseOutputBuffer _ _ err => err ≠ .OK
  | .getOutputBuffers _ err => err ≠ .OK
  | .getOutputFormat _ err => err ≠ .OK
  | _ => false

/-- The track on which the call queues an EOS-flagged input buffer that the codec
accepts, if the call is such a one. -/
def Call.queuesEOS : Call → Option Nat
  | .queueInputBuffer j eos err => if eos && err == .OK then some j else none
  | _ => none

/-- The track of which the call dequeues an EOS-flagged output buffer, if the
call is such a one. -/
def Call.outputsEOS : Call → Option Nat
  | .dequeueOutputBuffer j err _ eos => if eos && err == .OK then some j else none
  | _ => none

/-- The call dequeues an output buffer of track `i` (status `OK`). -/
def Call.outputsBuffer (i : Nat) : Call → Bool
  | .dequeueOutputBuffer j err _ _ => j == i && err == .OK
  | _ => false

/-- The call dequeues an output buffer of track `i` other than an EOS-only one
(size zero with the EOS flag). -/
def Call.outputsData (i : Nat) : Call → Bool
  | .dequeueOutputBuffer j err size eos => j == i && err == .OK && !(size == 0 && eos)
  | _ => false

/-- The tracks with an EOS-flagged input buffer queued, after one more call. -/
def Call.noteQueued (queued : Nat → Bool) (c : Call) : Nat → Bool :=
  fun i => queued i || c.queuesEOS == some i

/-- A codec that flushes in order: in the list of calls, an EOS-flagged output
buffer of a track comes only after an EOS-flagged input buffer was queued on that
track. `queued i` says that one was queued before the list starts. -/
def codecFIFO (queued : Nat → Bool) : List Call → Bool
  | [] => true
  | c :: cs =>
    (match c.outputsEOS with
      | some i => queued i
      | none => true) &&
      codecFIFO (Call.noteQueued queued c) cs

/-- A source-side call whose answer fails the `CHECK` that follows it:
`readSampleData` or `getSampleTime` other than `OK`, or the lookup of the state
of a track that has none. -/
def Call.sourceUnhandled : Call → Bool
  | .editValueFor _ => true
  | .readSampleData err => err ≠ .OK
  | .getSampleTime err => err ≠ .OK
  | _ => false

/-- No call of the list is fatal. -/
def noFatal (cs : List Call) : Bool := cs.all (fun c => !c.fatal)

/-- The last call of the list is fatal and no earlier one is. -/
def endsFatal : List Call → Bool
  | [] => false
  | c :: cs => if cs.isEmpty then c.fatal else !c.fatal && endsFatal cs

/-! ### Relations kept by the pieces of the loop -/

/-- A relation between the state before a piece of the loop, the calls the piece
makes and the state after it, that holds of doing nothing and of two pieces run
one after the other. -/
structure Composable (R : Pump → List Call → Pump → Prop) : Prop where
  refl : ∀ s, R s [] s
  trans : ∀ s cs s1 cs1 s2, R s cs s1 → R s1 cs1 s2 → R s (cs ++ cs1) s2

/-- Every run of `f` that does not abort satisfies `R`. -/
def Sound (R : Pump → List Call → Pump → Prop) (f : Pump → Run Pump) : Prop :=
  ∀ s s1, (f s).result = some s1 → R s (f s).calls s1

/-- The EOS ordering of a pump state, with the codec's side of it: a track that
has seen output EOS has signalled input EOS, and so has a track on which an
EOS-flagged input buffer was queued. -/
def EosOrdered (queued : Nat → Bool) (s : Pump) : Prop :=
  ∀ i key state, s.stateByTrack[i]? = some (key, state) →
    (state.mSawOutputEOS = true → state.mSignalledInputEOS = true) ∧
    (queued i = true → state.mSignalledInputEOS = true)

/-- A piece of the loop keeps the EOS ordering as long as the codec flushes in
order. -/
def KeepsEosOrder (s : Pump) (cs : List Call) (s1 : Pump) : Prop :=
  ∀ queued, EosOrdered queued s → codecFIFO queued cs = true →
    EosOrdered (cs.foldl Call.noteQueued queued) s1

/-- A piece of the loop keeps the tracks where they are and adds to each track's
`mNumBuffersDecoded` the number of output buffers it dequeued for the track. -/
def CountsBuffers (s : Pump) (cs : List Call) (s1 : Pump) : Prop :=
  s1.stateByTrack.length = s.stateByTrack.length ∧
  ∀ i key state1, s1.stateByTrack[i]? = some (key, state1) →
    ∃ state, s.stateByTrack[i]? = some (key, state) ∧
      state1.mNumBuffersDecoded =
        state.mNumBuffersDecoded + cs.countP (Call.outputsBuffer i)

/-- A run logs its abort: it aborts exactly when its last call is fatal, and no
call before the last is fatal. -/
def LogsAbort {α : Type} (r : Run α) : Prop :=
  (r.result ≠ none → noFatal r.calls = true) ∧ (r.result = none → endsFatal r.calls = true)

/-- The floor of the geometry cache: the stride is at least the width and the
slice height at least the height. -/
def Geometry.floored (g : Geometry) : Prop :=
  g.frameWidth ≤ g.frameStride ∧ g.frameHeight ≤ g.frameSliceHeight

/-- A piece of the loop keeps the floor of the geometry cache. -/
def KeepsFloor (s : Pump) (_cs : List Call) (s1 : Pump) : Prop :=
  s.geom.floored → s1.geom.floored

/-- A piece of the loop never resets a flag and never lowers a counter: every
track stays in place, a flag that was set is still set, and the counters have not
decreased. -/
def NeverResets (s : Pump) (_cs : List Call) (s1 : Pump) : Prop :=
  (s.sawInputEOS = true → s1.sawInputEOS = true) ∧
  ∀ (i key : Nat) (state1 : CodecState), s1.stateByTrack[i]? = some (key, state1) →
    ∃ state : CodecState, s.stateByTrack[i]? = some (key, state) ∧
      (state.mSignalledInputEOS = true → state1.mSignalledInputEOS = true) ∧
      (state.mSawOutputEOS = true → state1.mSawOutputEOS = true) ∧
      state.mNumBuffersDecoded ≤ state1.mNumBuffersDecoded ∧
      state.mNumBytesDecoded ≤ state1.mNumBytesDecoded

/-! ### Scenarios -/

/-- A video track as `decode` creates it. -/
def videoTrack : CodecState :=
  { mSignalledInputEOS := false, mSawOutputEOS := false, mNumBuffersDecoded := 0,
    mNumBytesDecoded := 0, mIsAudio := false }

/-- A video track at output EOS that has dequeued `n` output buffers, `bytes`
bytes in all. -/
def finishedTrack (n bytes : Nat) : CodecState :=
  { mSignalledInputEOS := true, mSawOutputEOS := true, mNumBuffersDecoded := n,
    mNumBytesDecoded := bytes, mIsAudio := false }

/-- The pump state at global completion of a run on one track (key 0) that has
dequeued `n` output buffers, `bytes` bytes in all. -/
def completed (n bytes : Nat) : Pump :=
  { stateByTrack := [(0, finishedTrack n bytes)], sawInputEOS := true,
    geom := Geometry.init }

/-- A padded geometry: width 2, height 2, stride 4, slice height 2. -/
def padded : Geometry :=
  { frameWidth := 2, frameHeight := 2, frameColorFormat := 0, frameStride := 4,
    frameSliceHeight := 2 }

/-- Decode-only configuration: no surface. -/
def noSurface : Config := { surface := false, renderSurface := false, useTimestamp := false }

/-- An iteration in which the extractor has no more samples and no codec has a
buffer to give (`-EAGAIN` from both dequeue calls). -/
def idle : Oracle :=
  { getSampleTrackIndex := .other (-1), trackIndex := 0,
    dequeueInputBuffer := fun _ => .EAGAIN,
    readSampleData := .OK, getSampleTime := .OK,
    queueInputBuffer := fun _ => .OK,
    dequeueOutputBuffer := fun _ => .EAGAIN,
    outputInfo := fun _ => { base := [], offset := 0, size := 0, eos := false },
    releaseOutputBuffer := fun _ => .OK,
    getOutputBuffers := fun _ => .OK,
    getOutputFormat := fun _ => .OK,
    outputFormat := fun _ =>
      { width := none, height := none, colorFormat := none, stride := none,
        sliceHeight := none } }

/-- An iteration in which every codec accepts an input buffer and returns the
EOS-only output buffer (size zero, EOS flag). -/
def flush : Oracle :=
  { idle with
    dequeueInputBuffer := fun _ => .OK,
    dequeueOutputBuffer := fun _ => .OK,
    outputInfo := fun _ => { base := [], offset := 0, size := 0, eos := true } }

/-- An iteration in which the extractor has a sample of track 0, the codec takes
it, and the codec hands out an EOS-flagged output buffer although no EOS-flagged
input buffer was queued. -/
def earlyEOS : Oracle :=
  { flush with getSampleTrackIndex := .OK, trackIndex := 0 }

/-- An iteration in which the extractor has a sample of track 0, the codec takes
it, and the codec hands out a decoded buffer of 12 bytes without the EOS flag. -/
def decodeOne : Oracle :=
  { idle with
    getSampleTrackIndex := .OK, trackIndex := 0,
    dequeueInputBuffer := fun _ => .OK,
    dequeueOutputBuffer := fun _ => .OK,
    outputInfo := fun _ => { base := List.range 12, offset := 0, size := 12, eos := false } }

/-- An iteration in which the extractor is exhausted and every codec announces a
new output format: width 16, height 16, stride 8, no slice height. -/
def formatChange : Oracle :=
  { idle with
    dequeueOutputBuffer := fun _ => .INFO_FORMAT_CHANGED,
    outputFormat := fun _ =>
      { width := some 16, height := some 16, colorFormat := none, stride := some 8,
        sliceHeight := none } }

/-- An iteration in which the extractor has a sample of track 0, the codec gives
an input buffer, and `readSampleData` fails. -/
def readFails : Oracle :=
  { idle with
    getSampleTrackIndex := .OK, trackIndex := 0,
    dequeueInputBuffer := fun _ => .OK,
    readSampleData := .other (-1) }

/-! ### Lemmas on `memcpy` and the two copy loops -/

theorem memcpy_length (dst : List Nat) (d : Nat) (src : List Nat) (s n : Nat) :
    (memcpy dst d src s n).length = dst.length := by
  induction n with
  | zero => rfl
  | succ n ih => simp [memcpy, ih]

/-- A byte outside the destination range `[d, d + n)` is untouched. -/
theorem memcpy_getElem?_outside (dst : List Nat) (d : Nat) (src : List Nat) (s n k : Nat)
    (hk : k < d ∨ d + n ≤ k) : (memcpy dst d src s n)[k]? = dst[k]? := by
  induction n with
  | zero => rfl
  | succ n ih =>
    have hne : d + n ≠ k := by omega
    simp only [memcpy]
    rw [List.getElem?_set_ne hne]
    exact ih (by omega)

/-- Byte `j` of the copy lands at `d + j` and holds `src[s + j]`. -/
theorem memcpy_getElem?_inside (dst : List Nat) (d : Nat) (src : List Nat) (s n j : Nat)
    (hj : j < n) (hd : d + j < dst.length) :
    (memcpy dst d src s n)[d + j]? = some (src.getD (s + j) 0) := by
  induction n with
  | zero => omega
  | succ n ih =>
    simp only [memcpy]
    by_cases hjn : j = n
    · subst hjn
      rw [List.getElem?_set_self (by rw [memcpy_length]; exact hd)]
    · have hne : d + n ≠ d + j := by omega
      rw [List.getElem?_set_ne hne]
      exact ih (by omega)

theorem lumaRows_length (width stride : Nat) (src : List Nat) (rows : Nat) (dst : List Nat) :
    (lumaRows width stride src rows dst).length = dst.length := by
  induction rows with
  | zero => rfl
  | succ i ih => simp [lumaRows, memcpy_length, ih]

theorem chromaRows_length (width stride us vs ud vd : Nat) (src : List Nat) (rows : Nat)
    (dst : List Nat) :
    (chromaRows width stride us vs ud vd src rows dst).length = dst.length := by
  induction rows with
  | zero => rfl
  | succ i ih => simp [chromaRows, memcpy_length, ih]

/-- Row-major indexing stays inside the plane: `i * pitch + j < rows * pitch`. -/
theorem row_index_lt {i j rows cols pitch : Nat} (hi : i < rows) (hj : j < cols)
    (hp : cols ≤ pitch) : i * pitch + j < rows * pitch := by
  have h1 : (i + 1) * pitch ≤ rows * pitch := Nat.mul_le_mul_right pitch hi
  have h2 : (i + 1) * pitch = i * pitch + pitch := by ring
  omega

/-- A quarter-size chroma plane fits in a quarter of the luma plane. -/
theorem chroma_plane_le (w h : Nat) : (h / 2) * (w / 2) ≤ (w * h) / 4 := by
  rw [Nat.le_div_iff_mul_le (by decide)]
  have h1 : h / 2 * 2 ≤ h := Nat.div_mul_le_self h 2
  have h2 : w / 2 * 2 ≤ w := Nat.div_mul_le_self w 2
  calc h / 2 * (w / 2) * 4 = (w / 2 * 2) * (h / 2 * 2) := by ring
    _ ≤ w * h := Nat.mul_le_mul h2 h1

/-- After the luma loop has run `rows` iterations, byte `j` of row `i < rows` of the
destination holds byte `j` of source row `i`. -/
theorem lumaRows_getElem? (width stride : Nat) (src : List Nat) (rows : Nat) (dst : List Nat)
    (i j : Nat) (hi : i < rows) (hj : j < width) (hd : i * width + j < dst.length) :
    (lumaRows width stride src rows dst)[i * width + j]? = some (src.getD (i * stride + j) 0) := by
  induction rows with
  | zero => omega
  | succ r ih =>
    simp only [lumaRows]
    by_cases hir : i = r
    · subst hir
      exact memcpy_getElem?_inside _ _ _ _ _ _ hj (by rw [lumaRows_length]; exact hd)
    · have hlt : i < r := by omega
      have hrow : i * width + j < r * width := row_index_lt hlt hj (Nat.le_refl _)
      rw [memcpy_getElem?_outside _ _ _ _ _ _ (Or.inl hrow)]
      exact ih hlt

/-- The chroma loop writes nothing below the U destination offset. -/
theorem chromaRows_getElem?_below (width stride us vs ud vd : Nat) (src : List Nat)
    (rows : Nat) (dst : List Nat) (k : Nat) (hk : k < ud) (hv : ud ≤ vd) :
    (chromaRows width stride us vs ud vd src rows dst)[k]? = dst[k]? := by
  induction rows with
  | zero => rfl
  | succ r ih =>
    simp only [chromaRows]
    rw [memcpy_getElem?_outside _ _ _ _ _ _ (Or.inl (by omega)),
      memcpy_getElem?_outside _ _ _ _ _ _ (Or.inl (by omega))]
    exact ih

/-- After `rows` iterations of the chroma loop, `rows` being at most `total` with
the U rows `0 .. total - 1` ending before the V destination offset, byte `j` of U
row `i < rows` holds byte `j` of the source U row `i`. -/
theorem chromaRows_getElem?_U (width stride us vs ud vd : Nat) (src : List Nat)
    (total rows : Nat) (dst : List Nat) (hrows : rows ≤ total)
    (hsep : ud + total * (width / 2) ≤ vd)
    (i j : Nat) (hi : i < rows) (hj : j < width / 2)
    (hd : ud + i * (width / 2) + j < dst.length) :
    (chromaRows width stride us vs ud vd src rows dst)[ud + i * (width / 2) + j]? =
      some (src.getD (us + i * (stride / 2) + j) 0) := by
  induction rows with
  | zero => omega
  | succ r ih =>
    simp only [chromaRows]
    have hin : i * (width / 2) + j < total * (width / 2) :=
      row_index_lt (by omega) hj (Nat.le_refl _)
    rw [memcpy_getElem?_outside _ _ _ _ _ _ (Or.inl (by omega))]
    by_cases hir : i = r
    · subst hir
      rw [Nat.add_assoc, Nat.add_assoc]
      rw [← Nat.add_assoc ud, ← Nat.add_assoc us]
      exact memcpy_getElem?_inside _ _ _ _ _ _ hj
        (by rw [chromaRows_length]; exact hd)
    · have hlt : i < r := by omega
      have hrow : i * (width / 2) + j < r * (width / 2) :=
        row_index_lt hlt hj (Nat.le_refl _)
      rw [memcpy_getElem?_outside _ _ _ _ _ _ (Or.inl (by omega))]
      exact ih (by omega) hlt

/-- The same for the V plane: neither a later V row nor any U row overwrites it. -/
theorem chromaRows_getElem?_V (width stride us vs ud vd : Nat) (src : List Nat)
    (total rows : Nat) (dst : List Nat) (hrows : rows ≤ total)
    (hsep : ud + total * (width / 2) ≤ vd)
    (i j : Nat) (hi : i < rows) (hj : j < width / 2)
    (hd : vd + i * (width / 2) + j < dst.length) :
    (chromaRows width stride us vs ud vd src rows dst)[vd + i * (width / 2) + j]? =
      some (src.getD (vs + i * (stride / 2) + j) 0) := by
  induction rows with
  | zero => omega
  | succ r ih =>
    simp only [chromaRows]
    by_cases hir : i = r
    · subst hir
      exact memcpy_getElem?_inside _ _ _ _ _ _ hj
        (by rw [memcpy_length, chromaRows_length]; exact hd)
    · have hlt : i < r := by omega
      have hrow : i * (width / 2) + j < r * (width / 2) :=
        row_index_lt hlt hj (Nat.le_refl _)
      have hur : (r + 1) * (width / 2) ≤ total * (width / 2) :=
        Nat.mul_le_mul_right _ hrows
      have hur2 : (r + 1) * (width / 2) = r * (width / 2) + width / 2 := by ring
      rw [memcpy_getElem?_outside _ _ _ _ _ _ (Or.inl (by omega)),
        memcpy_getElem?_outside _ _ _ _ _ _ (Or.inr (by omega))]
      exact ih (by omega) hlt

theorem packedInto_length (dst : List Nat) (width height stride sliceHeight : Nat)
    (src : List Nat) :
    (packedInto dst width height stride sliceHeight src).length = dst.length := by
  simp [packedInto, chromaRows_length, lumaRows_length]

/-- With `stride ≥ width`, `sliceHeight ≥ height`, a chroma read of row `i`, column
`j` at plane offset `off ≤ S + S / 4` stays inside a source of `S * 3 / 2` bytes,
`S = stride * sliceHeight`. -/
theorem chroma_src_lt {width height stride sliceHeight i j : Nat}
    (hstride : width ≤ stride) (hslice : height ≤ sliceHeight)
    (hi : i < height / 2) (hj : j < width / 2) :
    i * (stride / 2) + j < (stride * sliceHeight) / 4 := by
  have hrow : i < sliceHeight / 2 := by omega
  have h1 : i * (stride / 2) + j < (sliceHeight / 2) * (stride / 2) :=
    row_index_lt hrow hj (by omega)
  have h2 := chroma_plane_le stride sliceHeight
  omega

/-! ### Lemmas on the written offsets -/

/-- A `memcpy` of `n` bytes to offset `d` writes each offset of `[d, d + n)` once and
no other offset. -/
theorem memcpyWrites_count (d n k : Nat) :
    (memcpyWrites d n).count k = if d ≤ k ∧ k < d + n then 1 else 0 := by
  induction n with
  | zero =>
    simp only [memcpyWrites, List.count_nil]
    split_ifs <;> omega
  | succ n ih =>
    simp only [memcpyWrites, List.count_append, ih, List.count_singleton, beq_iff_eq]
    split_ifs <;> omega

theorem mem_memcpyWrites (d n k : Nat) : k ∈ memcpyWrites d n ↔ d ≤ k ∧ k < d + n := by
  rw [← List.count_pos_iff, memcpyWrites_count]
  split_ifs with h
  · simp [h]
  · simp [h]

/-- The luma loop leaves alone every offset that is not among its writes. -/
theorem lumaRows_getElem?_unwritten (width stride : Nat) (src : List Nat) (rows : Nat)
    (dst : List Nat) (k : Nat) (hk : k ∉ lumaOffsets width rows) :
    (lumaRows width stride src rows dst)[k]? = dst[k]? := by
  induction rows with
  | zero => rfl
  | succ i ih =>
    simp only [lumaOffsets, List.mem_append, not_or, mem_memcpyWrites] at hk
    simp only [lumaRows]
    rw [memcpy_getElem?_outside _ _ _ _ _ _ (by omega)]
    exact ih hk.1

/-- The chroma loop leaves alone every offset that is not among its writes. -/
theorem chromaRows_getElem?_unwritten (width stride us vs ud vd : Nat) (src : List Nat)
    (rows : Nat) (dst : List Nat) (k : Nat) (hu : k ∉ uOffsets width ud rows)
    (hv : k ∉ vOffsets width vd rows) :
    (chromaRows width stride us vs ud vd src rows dst)[k]? = dst[k]? := by
  induction rows with
  | zero => rfl
  | succ i ih =>
    simp only [uOffsets, List.mem_append, not_or, mem_memcpyWrites] at hu
    simp only [vOffsets, List.mem_append, not_or, mem_memcpyWrites] at hv
    simp only [chromaRows]
    rw [memcpy_getElem?_outside _ _ _ _ _ _ (by omega),
      memcpy_getElem?_outside _ _ _ _ _ _ (by omega)]
    exact ih hu.1 hv.1

/-- An offset that no line writes still holds what the block held. -/
theorem packedInto_getElem?_unwritten (dst : List Nat)
    (width height stride sliceHeight : Nat) (src : List Nat) (k : Nat)
    (hy : k ∉ lumaOffsets width height)
    (hu : k ∉ uOffsets width (width * height) (height / 2))
    (hv : k ∉ vOffsets width (width * height + width * height / 4) (height / 2)) :
    (packedInto dst width height stride sliceHeight src)[k]? = dst[k]? := by
  simp only [packedInto]
  rw [chromaRows_getElem?_unwritten _ _ _ _ _ _ _ _ _ _ hu hv,
    lumaRows_getElem?_unwritten _ _ _ _ _ _ hy]

/-- In a block of `width * height * 3 / 2` bytes the luma loop leaves byte `j` of
source row `i` at `i * width + j`, and the chroma loop does not touch it. -/
theorem packedInto_luma (dst : List Nat) (width height stride sliceHeight : Nat)
    (src : List Nat) (hlen : dst.length = width * height * 3 / 2)
    (hstride : width ≤ stride) (hslice : height ≤ sliceHeight)
    (hsrc : stride * sliceHeight * 3 / 2 ≤ src.length)
    (i j : Nat) (hi : i < height) (hj : j < width) :
    i * stride + j < src.length ∧
    i * width + j < (packedInto dst width height stride sliceHeight src).length ∧
    (packedInto dst width height stride sliceHeight src)[i * width + j]? =
      src[i * stride + j]? := by
  have hs1 : i * stride + j < sliceHeight * stride :=
    row_index_lt (by omega) hj hstride
  have hs2 : sliceHeight * stride = stride * sliceHeight := Nat.mul_comm _ _
  have hd1 : i * width + j < height * width := row_index_lt hi hj (Nat.le_refl _)
  have hd2 : height * width = width * height := Nat.mul_comm _ _
  have hsl : i * stride + j < src.length := by omega
  have hdl : i * width + j < dst.length := by omega
  refine ⟨hsl, by rw [packedInto_length]; exact hdl, ?_⟩
  simp only [packedInto]
  rw [chromaRows_getElem?_below _ _ _ _ _ _ _ _ _ _ (by omega) (by omega)]
  rw [lumaRows_getElem? _ _ _ _ _ _ _ hi hj hdl]
  rw [List.getD_eq_getElem?_getD, List.getElem?_eq_getElem hsl]
  rfl

/-- In a block of `width * height * 3 / 2` bytes the chroma loop leaves byte `j`
of row `i` of the source U and V planes in the U and V planes of the block, and
no later copy overwrites it. -/
theorem packedInto_chroma (dst : List Nat) (width height stride sliceHeight : Nat)
    (src : List Nat) (hlen : dst.length = width * height * 3 / 2)
    (hstride : width ≤ stride) (hslice : height ≤ sliceHeight)
    (hsrc : stride * sliceHeight * 3 / 2 ≤ src.length)
    (i j : Nat) (hi : i < height / 2) (hj : j < width / 2) :
    (stride * sliceHeight + (stride * sliceHeight) / 4 + i * (stride / 2) + j < src.length ∧
      width * height + (width * height) / 4 + i * (width / 2) + j <
        (packedInto dst width height stride sliceHeight src).length) ∧
    (packedInto dst width height stride sliceHeight src)[
        width * height + i * (width / 2) + j]? =
      src[stride * sliceHeight + i * (stride / 2) + j]? ∧
    (packedInto dst width height stride sliceHeight src)[
        width * height + (width * height) / 4 + i * (width / 2) + j]? =
      src[stride * sliceHeight + (stride * sliceHeight) / 4 + i * (stride / 2) + j]? := by
  have hsrcq := chroma_src_lt hstride hslice hi hj
  have hdq : i * (width / 2) + j < (height / 2) * (width / 2) :=
    row_index_lt hi hj (Nat.le_refl _)
  have hq := chroma_plane_le width height
  have hsU : stride * sliceHeight + i * (stride / 2) + j < src.length := by omega
  have hsV : stride * sliceHeight + (stride * sliceHeight) / 4 + i * (stride / 2) + j
      < src.length := by omega
  have hdU : width * height + i * (width / 2) + j < dst.length := by omega
  have hdV : width * height + (width * height) / 4 + i * (width / 2) + j
      < dst.length := by omega
  have hsep : width * height + (height / 2) * (width / 2)
      ≤ width * height + (width * height) / 4 := by omega
  refine ⟨⟨hsV, by rw [packedInto_length]; exact hdV⟩, ?_, ?_⟩
  · simp only [packedInto]
    rw [chromaRows_getElem?_U _ _ _ _ _ _ _ (height / 2) _ _ (Nat.le_refl _) hsep i j hi hj
      (by simpa [lumaRows_length] using hdU)]
    rw [List.getD_eq_getElem?_getD, List.getElem?_eq_getElem hsU]
    rfl
  · simp only [packedInto]
    rw [chromaRows_getElem?_V _ _ _ _ _ _ _ (height / 2) _ _ (Nat.le_refl _) hsep i j hi hj
      (by simpa [lumaRows_length] using hdV)]
    rw [List.getD_eq_getElem?_getD, List.getElem?_eq_getElem hsV]
    rfl

/-! ### The overflow checks -/

theorem fitInt_of_le {n : Nat} (h : n ≤ INT_MAX) : fitInt n = some n := by
  simp [fitInt, h]

theorem fitInt_eq_some {n m : Nat} (h : fitInt n = some m) : n ≤ INT_MAX ∧ m = n := by
  unfold fitInt at h
  split at h
  · rename_i hle
    exact ⟨hle, (Option.some.inj h).symm⟩
  · exact absurd h (by simp)

/-- When the products of its iterations fit, the luma loop computes `lumaRows` and
writes `lumaOffsets`. -/
theorem copyY_eq (width stride : Nat) (src : List Nat) (rows : Nat) (p : Packing)
    (hfit : ∀ i, i < rows → i * width ≤ INT_MAX ∧ i * stride ≤ INT_MAX) :
    copyY width stride src rows p =
      some { dst := lumaRows width stride src rows p.dst,
             yWrites := p.yWrites ++ lumaOffsets width rows,
             uWrites := p.uWrites, vWrites := p.vWrites } := by
  induction rows with
  | zero => simp [copyY, lumaRows, lumaOffsets]
  | succ i ih =>
    have hi := hfit i (Nat.lt_succ_self i)
    simp [copyY, ih (fun k hk => hfit k (Nat.lt_succ_of_lt hk)), fitInt_of_le hi.1,
      fitInt_of_le hi.2, lumaRows, lumaOffsets]

/-- When the products of its iterations fit, the chroma loop computes `chromaRows`
and writes `uOffsets` and `vOffsets`. -/
theorem copyUV_eq (width stride us vs ud vd : Nat) (src : List Nat) (rows : Nat)
    (p : Packing)
    (hfit : ∀ i, i < rows → i * (width / 2) ≤ INT_MAX ∧ i * (stride / 2) ≤ INT_MAX) :
    copyUV width stride us vs ud vd src rows p =
      some { dst := chromaRows width stride us vs ud vd src rows p.dst,
             yWrites := p.yWrites,
             uWrites := p.uWrites ++ uOffsets width ud rows,
             vWrites := p.vWrites ++ vOffsets width vd rows } := by
  induction rows with
  | zero => simp [copyUV, chromaRows, uOffsets, vOffsets]
  | succ i ih =>
    have hi := hfit i (Nat.lt_succ_self i)
    simp [copyUV, ih (fun k hk => hfit k (Nat.lt_succ_of_lt hk)), fitInt_of_le hi.1,
      fitInt_of_le hi.2, chromaRows, uOffsets, vOffsets]

/-- The products of the iterations fit when the three bounds hold. -/
theorem rows_fit {width height stride : Nat} (harea : width * height * 3 ≤ INT_MAX)
    (hrows : (height - 1) * stride ≤ INT_MAX) (i : Nat) (hi : i < height) :
    (i * width ≤ INT_MAX ∧ i * stride ≤ INT_MAX) ∧
    (i * (width / 2) ≤ INT_MAX ∧ i * (stride / 2) ≤ INT_MAX) := by
  have h1 : i * stride ≤ (height - 1) * stride := Nat.mul_le_mul_right _ (by omega)
  have h2 : i * width ≤ height * width := Nat.mul_le_mul_right _ (by omega)
  have h3 : height * width = width * height := Nat.mul_comm _ _
  have h4 : i * (width / 2) ≤ i * width := Nat.mul_le_mul_left _ (Nat.div_le_self _ _)
  have h5 : i * (stride / 2) ≤ i * stride := Nat.mul_le_mul_left _ (Nat.div_le_self _ _)
  omega

/-- When no `int` expression overflows, lines 87-101 leave `packedInto` in the
block and write the three lists of offsets. -/
theorem packInto_eq (dst : List Nat) (width height stride sliceHeight : Nat)
    (src : List Nat) (harea : width * height * 3 ≤ INT_MAX)
    (hrows : (height - 1) * stride ≤ INT_MAX)
    (hsrc : stride * sliceHeight + stride * sliceHeight / 4 ≤ INT_MAX) :
    packInto dst width height stride sliceHeight src =
      some { dst := packedInto dst width height stride sliceHeight src,
             yWrites := lumaOffsets width height,
             uWrites := uOffsets width (width * height) (height / 2),
             vWrites := vOffsets width (width * height + width * height / 4)
               (height / 2) } := by
  have hY := copyY_eq width stride src height
    { dst := dst, yWrites := [], uWrites := [], vWrites := [] }
    (fun i hi => (rows_fit harea hrows i hi).1)
  have h1 : fitInt (stride * sliceHeight) = some (stride * sliceHeight) :=
    fitInt_of_le (by omega)
  have h2 : fitInt (stride * sliceHeight + stride * sliceHeight / 4) =
      some (stride * sliceHeight + stride * sliceHeight / 4) := fitInt_of_le hsrc
  have h3 : fitInt (width * height) = some (width * height) := fitInt_of_le (by omega)
  have h4 : fitInt (width * height + width * height / 4) =
      some (width * height + width * height / 4) := fitInt_of_le (by omega)
  simp only [packInto, hY, h1, h2, h3, h4, Option.bind_eq_bind, Option.some_bind]
  rw [copyUV_eq _ _ _ _ _ _ _ _ _
    (fun i hi => (rows_fit harea hrows i (by omega)).2)]
  simp [packedInto]

/-- When no `int` expression overflows, `PackYUV420` returns `packed`. -/
theorem PackYUV420Log_eq (width height stride sliceHeight : Nat) (src : List Nat)
    (harea : width * height * 3 ≤ INT_MAX) (hrows : (height - 1) * stride ≤ INT_MAX)
    (hsrc : stride * sliceHeight + stride * sliceHeight / 4 ≤ INT_MAX) :
    PackYUV420Log width height stride sliceHeight src =
      some { dst := packed width height stride sliceHeight src,
             yWrites := lumaOffsets width height,
             uWrites := uOffsets width (width * height) (height / 2),
             vWrites := vOffsets width (width * height + width * height / 4)
               (height / 2) } := by
  have h1 : fitInt (width * height) = some (width * height) := fitInt_of_le (by omega)
  have h2 : fitInt (width * height * 3) = some (width * height * 3) := fitInt_of_le harea
  simp only [PackYUV420Log, h1, h2, Option.bind_eq_bind, Option.some_bind]
  rw [packInto_eq _ _ _ _ _ _ harea hrows hsrc]
  rfl

theorem PackYUV420_eq (width height stride sliceHeight : Nat) (src : List Nat)
    (harea : width * height * 3 ≤ INT_MAX) (hrows : (height - 1) * stride ≤ INT_MAX)
    (hsrc : stride * sliceHeight + stride * sliceHeight / 4 ≤ INT_MAX) :
    PackYUV420 width height stride sliceHeight src =
      some (packed width height stride sliceHeight src) := by
  simp [PackYUV420, PackYUV420Log_eq _ _ _ _ _ harea hrows hsrc]

/-- With `stride ≥ width` and `sliceHeight ≥ height` the products of the luma rows
fit as soon as `stride * sliceHeight` does. -/
theorem rows_bound_of_floor {height stride sliceHeight : Nat}
    (hslice : height ≤ sliceHeight)
    (hsrc : stride * sliceHeight + stride * sliceHeight / 4 ≤ INT_MAX) :
    (height - 1) * stride ≤ INT_MAX := by
  have h1 : (height - 1) * stride ≤ sliceHeight * stride :=
    Nat.mul_le_mul_right _ (by omega)
  have h2 : sliceHeight * stride = stride * sliceHeight := Nat.mul_comm _ _
  omega

/-- A luma loop that has a result has met no overflow in its iterations. -/
theorem copyY_fit (width stride : Nat) (src : List Nat) (rows : Nat) (p q : Packing)
    (h : copyY width stride src rows p = some q) :
    ∀ i, i < rows → i * width ≤ INT_MAX ∧ i * stride ≤ INT_MAX := by
  induction rows generalizing q with
  | zero => intro i hi; omega
  | succ n ih =>
    simp only [copyY, Option.bind_eq_bind, Option.bind_eq_some] at h
    obtain ⟨q1, hq1, d, hd, s1, hs1, -⟩ := h
    intro i hi
    by_cases hin : i = n
    · subst hin
      exact ⟨(fitInt_eq_some hd).1, (fitInt_eq_some hs1).1⟩
    · exact ih q1 hq1 i (by omega)

/-- `PackYUV420` has a result exactly when none of its `int` expressions
overflows: `width * height * 3`, the row products up to `(height - 1) * stride`,
and `stride * sliceHeight + stride * sliceHeight / 4`. -/
theorem PackYUV420_isSome_iff (width height stride sliceHeight : Nat) (src : List Nat) :
    (PackYUV420 width height stride sliceHeight src).isSome = true ↔
      (width * height * 3 ≤ INT_MAX ∧ (height - 1) * stride ≤ INT_MAX ∧
        stride * sliceHeight + stride * sliceHeight / 4 ≤ INT_MAX) := by
  constructor
  · intro h
    obtain ⟨out, hout⟩ := Option.isSome_iff_exists.mp h
    simp only [PackYUV420, Option.map_eq_some', PackYUV420Log, Option.bind_eq_bind,
      Option.bind_eq_some, packInto] at hout
    obtain ⟨p, ⟨area, harea, area3, harea3, p1, hp1, us, hus, vs, hvs, -⟩, -⟩ := hout
    obtain ⟨_, rfl⟩ := fitInt_eq_some harea
    obtain ⟨h3, _⟩ := fitInt_eq_some harea3
    obtain ⟨_, rfl⟩ := fitInt_eq_some hus
    obtain ⟨hv, _⟩ := fitInt_eq_some hvs
    refine ⟨h3, ?_, hv⟩
    by_cases hz : height = 0
    · subst hz
      simp
    · exact (copyY_fit _ _ _ _ _ _ hp1 (height - 1) (by omega)).2
  · rintro ⟨h1, h2, h3⟩
    rw [PackYUV420_eq _ _ _ _ _ h1 h2 h3]
    rfl

/-! ### Lemmas on the pump loop -/

@[simp] theorem Run.pure_calls {α : Type} (a : α) : (pure a : Run α).calls = [] := rfl

@[simp] theorem Run.pure_result {α : Type} (a : α) : (pure a : Run α).result = some a := rfl

/-- A sequence that does not abort: both parts ran, and the calls are those of the
first followed by those of the second. -/
theorem Run.bind_some {α β : Type} {r : Run α} {f : α → Run β} {b : β}
    (h : (r >>= f).result = some b) :
    ∃ a, r.result = some a ∧ (f a).result = some b ∧
      (r >>= f).calls = r.calls ++ (f a).calls := by
  show ∃ a, r.result = some a ∧ (f a).result = some b ∧
      (Run.bind r f).calls = r.calls ++ (f a).calls
  change (Run.bind r f).result = some b at h
  unfold Run.bind at h ⊢
  cases hr : r.result with
  | none => simp [hr] at h
  | some a =>
    simp only [hr] at h ⊢
    exact ⟨a, rfl, h, rfl⟩

theorem forTracks_sound {R : Pump → List Call → Pump → Prop} (hR : Composable R)
    (body : Nat → Pump → Run Pump) (hb : ∀ i, Sound R (body i)) (n : Nat) :
    Sound R (forTracks body n) := by
  induction n with
  | zero =>
    intro s s1 h
    simp only [forTracks, Run.pure_result, Option.some.injEq] at h
    subst h
    exact hR.refl s
  | succ n ih =>
    intro s s1 h
    simp only [forTracks] at h ⊢
    obtain ⟨a, ha, hb1, hc⟩ := Run.bind_some h
    rw [hc]
    exact hR.trans _ _ _ _ _ (ih s a ha) (hb n a s1 hb1)

theorem inputPhase_sound {R : Pump → List Call → Pump → Prop} (hR : Composable R)
    (o : Oracle) (hf : Sound R (feedSample o)) (hs : ∀ i, Sound R (signalInputEOS o i)) :
    Sound R (inputPhase o) := by
  intro s s1 h
  unfold inputPhase at h ⊢
  split
  · rename_i hsaw
    rw [if_pos hsaw] at h
    exact hf s s1 h
  · rename_i hsaw
    rw [if_neg hsaw] at h
    exact forTracks_sound hR _ hs _ s s1 h

theorem iteration_sound {R : Pump → List Call → Pump → Prop} (hR : Composable R)
    (cfg : Config) (o : Oracle) (hf : Sound R (feedSample o))
    (hs : ∀ i, Sound R (signalInputEOS o i)) (hd : ∀ i, Sound R (drainOutput cfg o i))
    (s : Pump) (done : Bool) (s1 : Pump)
    (h : (iteration cfg o s).result = some (done, s1)) :
    R s (iteration cfg o s).calls s1 := by
  unfold iteration at h ⊢
  obtain ⟨a, ha, hb1, hc⟩ := Run.bind_some h
  rw [hc]
  have hin := inputPhase_sound hR o hf hs s a ha
  split at hb1
  · rename_i hall
    rw [if_pos hall]
    simp only [Run.pure_result, Option.some.injEq, Prod.mk.injEq] at hb1
    obtain ⟨-, rfl⟩ := hb1
    simpa using hin
  · rename_i hall
    rw [if_neg hall]
    obtain ⟨a2, ha2, hb2, hc2⟩ := Run.bind_some hb1
    rw [hc2]
    simp only [Run.pure_result, Option.some.injEq, Prod.mk.injEq] at hb2
    obtain ⟨-, rfl⟩ := hb2
    simp only [Run.pure_calls, List.append_nil]
    exact hR.trans _ _ _ _ _ hin (forTracks_sound hR _ hd _ a a2 ha2)

theorem pumpLoop_sound {R : Pump → List Call → Pump → Prop} (hR : Composable R)
    (cfg : Config) (hf : ∀ o, Sound R (feedSample o))
    (hs : ∀ o i, Sound R (signalInputEOS o i)) (hd : ∀ o i, Sound R (drainOutput cfg o i))
    (os : List Oracle) (s : Pump) (done : Bool) (s1 : Pump)
    (h : (pumpLoop cfg os s).result = some (done, s1)) :
    R s (pumpLoop cfg os s).calls s1 := by
  induction os generalizing s with
  | nil =>
    simp only [pumpLoop, Run.pure_result, Option.some.injEq, Prod.mk.injEq] at h
    obtain ⟨-, rfl⟩ := h
    exact hR.refl s
  | cons o os ih =>
    simp only [pumpLoop] at h ⊢
    obtain ⟨⟨d, a⟩, ha, hb1, hc⟩ := Run.bind_some h
    rw [hc]
    have hit := iteration_sound hR cfg o (hf o) (hs o) (hd o) s d a ha
    cases d with
    | true =>
      simp only [if_true, Run.pure_result, Option.some.injEq, Prod.mk.injEq] at hb1
      obtain ⟨-, rfl⟩ := hb1
      simpa using hit
    | false =>
      simp only [Bool.false_eq_true, if_false] at hb1 ⊢
      exact hR.trans _ _ _ _ _ hit (ih a hb1)

/-- What an entry of `stateByTrack` is after an assignment through `editValueAt(i)`. -/
theorem setState_getElem? {s : Pump} {i key : Nat} {state : CodecState} {j k : Nat}
    {state1 : CodecState}
    (h : (s.setState i key state).stateByTrack[j]? = some (k, state1)) :
    (j = i ∧ k = key ∧ state1 = state) ∨ (j ≠ i ∧ s.stateByTrack[j]? = some (k, state1)) := by
  simp only [Pump.setState, List.getElem?_set] at h
  by_cases hij : i = j
  · subst hij
    simp only [if_true] at h
    split at h
    · simp only [Option.some.injEq, Prod.mk.injEq] at h
      exact Or.inl ⟨rfl, h.1.symm, h.2.symm⟩
    · simp at h
  · rw [if_neg hij] at h
    exact Or.inr ⟨fun e => hij e.symm, h⟩

theorem countsBuffers_composable : Composable CountsBuffers where
  refl := fun s => ⟨rfl, fun i key state1 h => ⟨state1, h, by simp⟩⟩
  trans := by
    intro s cs s1 cs1 s2 h1 h2
    refine ⟨h2.1.trans h1.1, ?_⟩
    intro i key state2 h
    obtain ⟨state1, hs1, e1⟩ := h2.2 i key state2 h
    obtain ⟨state, hs, e⟩ := h1.2 i key state1 hs1
    exact ⟨state, hs, by rw [e1, e, List.countP_append, Nat.add_assoc]⟩

/-- A piece that dequeues no output buffer and leaves the tracks alone. -/
theorem countsBuffers_same {s s1 : Pump} {cs : List Call}
    (ht : s1.stateByTrack = s.stateByTrack)
    (hc : ∀ j, cs.countP (Call.outputsBuffer j) = 0) : CountsBuffers s cs s1 := by
  refine ⟨by rw [ht], ?_⟩
  intro j k state1 h
  rw [ht] at h
  exact ⟨state1, h, by rw [hc j]; rfl⟩

/-- A piece that dequeues `n` output buffers of track `i` and none of another
track, and adds `n` to the counter of track `i`. -/
theorem countsBuffers_setState {s : Pump} {cs : List Call} {i key n : Nat}
    {state state1 : CodecState} (hs : s.stateByTrack[i]? = some (key, state))
    (hn : state1.mNumBuffersDecoded = state.mNumBuffersDecoded + n)
    (hi : cs.countP (Call.outputsBuffer i) = n)
    (hc : ∀ j, j ≠ i → cs.countP (Call.outputsBuffer j) = 0) :
    CountsBuffers s cs (s.setState i key state1) := by
  refine ⟨by simp [Pump.setState], ?_⟩
  intro j k state2 h
  rcases setState_getElem? h with ⟨rfl, rfl, rfl⟩ | ⟨hne, hj⟩
  · exact ⟨state, hs, by rw [hn, hi]⟩
  · exact ⟨state2, hj, by rw [hc j hne]; rfl⟩

theorem feedSample_countsBuffers (o : Oracle) : Sound CountsBuffers (feedSample o) := by
  intro s s1 h
  by_cases h1 : o.getSampleTrackIndex = .OK
  · cases hidx : indexOfKey s.stateByTrack o.trackIndex with
    | none => simp [feedSample, h1, hidx, bind, Run.bind, call, pure] at h
    | some i =>
      simp only [feedSample, h1, hidx, bind, Run.bind, call, CHECK_EQ, pure] at h ⊢
      split_ifs at h ⊢ <;> simp_all <;>
        exact countsBuffers_same rfl (by simp [Call.outputsBuffer])
  · simp only [feedSample, h1, bind, Run.bind, call, CHECK_EQ, pure] at h ⊢
    simp_all
    subst h
    exact countsBuffers_same rfl (by simp [Call.outputsBuffer])

theorem signalInputEOS_countsBuffers (o : Oracle) (i : Nat) :
    Sound CountsBuffers (signalInputEOS o i) := by
  intro s s1 h
  unfold signalInputEOS at h ⊢
  split at h
  · simp only [Run.pure_result, Option.some.injEq] at h
    subst h
    exact countsBuffers_composable.refl _
  · rename_i key state heq
    simp only [bind, Run.bind, call, CHECK_EQ, pure] at h ⊢
    split_ifs at h ⊢ <;> simp_all <;>
      first
      | exact countsBuffers_same rfl (by simp [Call.outputsBuffer])
      | (subst h
         exact countsBuffers_setState (n := 0) heq rfl (by simp [Call.outputsBuffer])
           (by simp [Call.outputsBuffer]))

theorem drainOutput_countsBuffers (cfg : Config) (o : Oracle) (i : Nat) :
    Sound CountsBuffers (drainOutput cfg o i) := by
  intro s s1 h
  unfold drainOutput at h ⊢
  split at h
  · simp only [Run.pure_result, Option.some.injEq] at h
    subst h
    exact countsBuffers_composable.refl _
  · rename_i key state heq
    simp only [bind, Run.bind, call, CHECK_EQ, pure] at h ⊢
    split_ifs at h ⊢ <;> simp_all <;>
      first
      | exact countsBuffers_same rfl (by simp [Call.outputsBuffer])
      | (subst h
         exact countsBuffers_same rfl (by simp [Call.outputsBuffer]))
      | (subst h
         refine countsBuffers_setState (n := 1) heq rfl (by simp [Call.outputsBuffer]) ?_
         intro j hj
         simp [Call.outputsBuffer]
         omega)

theorem pumpLoop_countsBuffers (cfg : Config) (os : List Oracle) (s : Pump) (done : Bool)
    (s1 : Pump) (h : (pumpLoop cfg os s).result = some (done, s1)) :
    CountsBuffers s (pumpLoop cfg os s).calls s1 :=
  pumpLoop_sound countsBuffers_composable cfg feedSample_countsBuffers
    signalInputEOS_countsBuffers (drainOutput_countsBuffers cfg) os s done s1 h

/-! ### EOS ordering -/

theorem codecFIFO_append (queued : Nat → Bool) (cs cs1 : List Call) :
    codecFIFO queued (cs ++ cs1) =
      (codecFIFO queued cs && codecFIFO (cs.foldl Call.noteQueued queued) cs1) := by
  induction cs generalizing queued with
  | nil => simp [codecFIFO]
  | cons c cs ih => simp [codecFIFO, ih, Bool.and_assoc]

theorem keepsEosOrder_composable : Composable KeepsEosOrder where
  refl := fun _ _ h _ => h
  trans := by
    intro s cs s1 cs1 s2 h1 h2 queued hq hf
    rw [codecFIFO_append, Bool.and_eq_true] at hf
    rw [List.foldl_append]
    exact h2 _ (h1 queued hq hf.1) hf.2

theorem foldl_noteQueued_same (cs : List Call) (hc : ∀ c ∈ cs, c.queuesEOS = none)
    (queued : Nat → Bool) : cs.foldl Call.noteQueued queued = queued := by
  induction cs generalizing queued with
  | nil => rfl
  | cons c cs ih =>
    have hc0 : c.queuesEOS = none := hc c (List.mem_cons_self _ _)
    have hq : Call.noteQueued queued c = queued := by
      funext i
      simp [Call.noteQueued, hc0]
    simp only [List.foldl_cons, hq]
    exact ih (fun c1 h1 => hc c1 (List.mem_cons_of_mem _ h1)) queued

/-- A piece that queues no EOS-flagged input buffer and leaves the tracks alone. -/
theorem keepsEosOrder_same {s s1 : Pump} {cs : List Call}
    (ht : s1.stateByTrack = s.stateByTrack)
    (hc : ∀ c ∈ cs, c.queuesEOS = none) : KeepsEosOrder s cs s1 := by
  intro queued hq _
  rw [foldl_noteQueued_same cs hc]
  intro i key state h
  rw [ht] at h
  exact hq i key state h

theorem feedSample_keepsEosOrder (o : Oracle) : Sound KeepsEosOrder (feedSample o) := by
  intro s s1 h
  by_cases h1 : o.getSampleTrackIndex = .OK
  · cases hidx : indexOfKey s.stateByTrack o.trackIndex with
    | none => simp [feedSample, h1, hidx, bind, Run.bind, call, pure] at h
    | some i =>
      simp only [feedSample, h1, hidx, bind, Run.bind, call, CHECK_EQ, pure] at h ⊢
      split_ifs at h ⊢ <;> simp_all <;>
        exact keepsEosOrder_same rfl (by simp [Call.queuesEOS])
  · simp only [feedSample, h1, bind, Run.bind, call, CHECK_EQ, pure] at h ⊢
    simp_all
    subst h
    exact keepsEosOrder_same rfl (by simp [Call.queuesEOS])

theorem signalInputEOS_keepsEosOrder (o : Oracle) (i : Nat) :
    Sound KeepsEosOrder (signalInputEOS o i) := by
  intro s s1 h
  unfold signalInputEOS at h ⊢
  split at h
  · simp only [Run.pure_result, Option.some.injEq] at h
    subst h
    exact keepsEosOrder_composable.refl _
  · rename_i key state heq
    simp only [bind, Run.bind, call, CHECK_EQ, pure] at h ⊢
    split_ifs at h ⊢ <;> simp_all <;>
      first
      | exact keepsEosOrder_same rfl (by simp [Call.queuesEOS])
      | (subst h
         intro queued hq _ j k state1 hj
         rcases setState_getElem? hj with ⟨rfl, rfl, rfl⟩ | ⟨hne, hj1⟩
         · simp
         · have := hq j k state1 hj1
           have hne1 : ¬ i = j := fun e => hne e.symm
           simpa [Call.noteQueued, Call.queuesEOS, hne1] using this)

theorem drainOutput_keepsEosOrder (cfg : Config) (o : Oracle) (i : Nat) :
    Sound KeepsEosOrder (drainOutput cfg o i) := by
  intro s s1 h
  unfold drainOutput at h ⊢
  split at h
  · simp only [Run.pure_result, Option.some.injEq] at h
    subst h
    exact keepsEosOrder_composable.refl _
  · rename_i key state heq
    simp only [bind, Run.bind, call, CHECK_EQ, pure] at h ⊢
    split_ifs at h ⊢ <;> simp_all <;>
      first
      | exact keepsEosOrder_same rfl (by simp [Call.queuesEOS])
      | (subst h
         exact keepsEosOrder_same rfl (by simp [Call.queuesEOS]))
      | (subst h
         intro queued hq hf j k state1 hj
         have hi := hq i key state heq
         rcases setState_getElem? hj with ⟨rfl, rfl, rfl⟩ | ⟨hne, hj1⟩
         · simp_all [codecFIFO, Call.outputsEOS, Call.noteQueued, Call.queuesEOS]
         · have := hq j k state1 hj1
           simpa [Call.noteQueued, Call.queuesEOS] using this)

theorem pumpLoop_keepsEosOrder (cfg : Config) (os : List Oracle) (s : Pump) (done : Bool)
    (s1 : Pump) (h : (pumpLoop cfg os s).result = some (done, s1)) :
    KeepsEosOrder s (pumpLoop cfg os s).calls s1 :=
  pumpLoop_sound keepsEosOrder_composable cfg feedSample_keepsEosOrder
    signalInputEOS_keepsEosOrder (drainOutput_keepsEosOrder cfg) os s done s1 h

/-! ### Aborts -/

theorem noFatal_append (cs cs1 : List Call) :
    noFatal (cs ++ cs1) = (noFatal cs && noFatal cs1) := by
  simp [noFatal, List.all_append]

theorem endsFatal_append (cs cs1 : List Call) (h : noFatal cs = true) :
    endsFatal (cs ++ cs1) = endsFatal cs1 := by
  induction cs with
  | nil => rfl
  | cons c cs ih =>
    simp only [noFatal, List.all_cons, Bool.and_eq_true, Bool.not_eq_true'] at h
    have ih1 := ih (by simpa [noFatal] using h.2)
    have e : (c :: cs) ++ cs1 = c :: (cs ++ cs1) := rfl
    rw [e, endsFatal]
    by_cases hemp : (cs ++ cs1).isEmpty = true
    · rw [if_pos hemp]
      have hnil := List.isEmpty_iff.mp hemp
      have h2 : cs1 = [] := (List.append_eq_nil.mp hnil).2
      rw [h2]
      simp [endsFatal, h.1]
    · rw [if_neg hemp, ih1, h.1]
      simp

theorem noFatal_mem {cs : List Call} (h : noFatal cs = true) {c : Call} (hc : c ∈ cs) :
    c.fatal = false := by
  simp only [noFatal, List.all_eq_true, Bool.not_eq_true'] at h
  exact h c hc

theorem endsFatal_mem {cs : List Call} (h : endsFatal cs = true) :
    ∃ c ∈ cs, c.fatal = true := by
  induction cs with
  | nil => simp [endsFatal] at h
  | cons c cs ih =>
    simp only [endsFatal] at h
    split at h
    · exact ⟨c, List.mem_cons_self _ _, h⟩
    · simp only [Bool.and_eq_true] at h
      obtain ⟨c1, hc1, hf⟩ := ih h.2
      exact ⟨c1, List.mem_cons_of_mem _ hc1, hf⟩

theorem endsFatal_last {pre post : List Call} {c : Call}
    (h : endsFatal (pre ++ c :: post) = true) (hc : c.fatal = true) : post = [] := by
  induction pre with
  | nil =>
    simp only [List.nil_append, endsFatal] at h
    split at h
    · rename_i hemp
      exact List.isEmpty_iff.mp hemp
    · simp [hc] at h
  | cons p pre ih =>
    have e : (p :: pre) ++ c :: post = p :: (pre ++ c :: post) := rfl
    rw [e, endsFatal] at h
    have hemp : ¬ (pre ++ c :: post).isEmpty = true := by simp
    rw [if_neg hemp] at h
    simp only [Bool.and_eq_true] at h
    exact ih h.2

theorem logsAbort_pure {α : Type} (a : α) : LogsAbort (pure a : Run α) := by
  simp [LogsAbort, noFatal]

theorem logsAbort_bind {α β : Type} {r : Run α} {f : α → Run β} (hr : LogsAbort r)
    (hf : ∀ a, r.result = some a → LogsAbort (f a)) : LogsAbort (r >>= f) := by
  show LogsAbort (Run.bind r f)
  unfold Run.bind
  cases hres : r.result with
  | none =>
    simp only
    exact ⟨fun h => absurd rfl h, fun _ => hr.2 hres⟩
  | some a =>
    simp only
    have hn : noFatal r.calls = true := hr.1 (by simp [hres])
    have ha := hf a hres
    refine ⟨fun h => ?_, fun h => ?_⟩
    · rw [noFatal_append, hn, ha.1 h]
      rfl
    · rw [endsFatal_append _ _ hn]
      exact ha.2 h

theorem feedSample_logsAbort (o : Oracle) (s : Pump) : LogsAbort (feedSample o s) := by
  by_cases h1 : o.getSampleTrackIndex = .OK
  · cases hidx : indexOfKey s.stateByTrack o.trackIndex with
    | none =>
      simp [feedSample, h1, hidx, bind, Run.bind, call, pure, LogsAbort, noFatal, endsFatal,
        Call.fatal]
    | some i =>
      simp only [feedSample, h1, hidx, bind, Run.bind, call, CHECK_EQ, pure]
      split_ifs <;> simp_all [LogsAbort, noFatal, endsFatal, Call.fatal]
  · simp only [feedSample, h1, bind, Run.bind, call, CHECK_EQ, pure]
    simp_all [LogsAbort, noFatal, endsFatal, Call.fatal]

theorem signalInputEOS_logsAbort (o : Oracle) (i : Nat) (s : Pump) :
    LogsAbort (signalInputEOS o i s) := by
  unfold signalInputEOS
  split
  · exact logsAbort_pure _
  · simp only [bind, Run.bind, call, CHECK_EQ, pure]
    split_ifs <;> simp_all [LogsAbort, noFatal, endsFatal, Call.fatal]

theorem drainOutput_logsAbort (cfg : Config) (o : Oracle) (i : Nat) (s : Pump) :
    LogsAbort (drainOutput cfg o i s) := by
  unfold drainOutput
  split
  · exact logsAbort_pure _
  · simp only [bind, Run.bind, call, CHECK_EQ, pure]
    split_ifs <;> simp_all [LogsAbort, noFatal, endsFatal, Call.fatal]

theorem forTracks_logsAbort (body : Nat → Pump → Run Pump)
    (hb : ∀ i s, LogsAbort (body i s)) (n : Nat) (s : Pump) :
    LogsAbort (forTracks body n s) := by
  induction n with
  | zero => exact logsAbort_pure _
  | succ n ih =>
    simp only [forTracks]
    exact logsAbort_bind ih (fun a _ => hb n a)

theorem iteration_logsAbort (cfg : Config) (o : Oracle) (s : Pump) :
    LogsAbort (iteration cfg o s) := by
  unfold iteration
  refine logsAbort_bind ?_ (fun a _ => ?_)
  · unfold inputPhase
    split
    · exact feedSample_logsAbort o s
    · exact forTracks_logsAbort _ (signalInputEOS_logsAbort o) _ _
  · split
    · exact logsAbort_pure _
    · exact logsAbort_bind (forTracks_logsAbort _ (drainOutput_logsAbort cfg o) _ _)
        (fun _ _ => logsAbort_pure _)

/-! ### Geometry floor and monotone flags -/

theorem formatChanged_floored (g : Geometry) (format : AMessage) :
    (formatChanged g format).floored := by
  obtain ⟨w, h, c, st, sh⟩ := format
  constructor
  · cases w <;> cases st <;> simp [formatChanged, findInt32] <;> split <;> omega
  · cases h <;> cases sh <;> simp [formatChanged, findInt32] <;> split <;> omega

theorem keepsFloor_composable : Composable KeepsFloor where
  refl := fun _ h => h
  trans := fun _ _ _ _ _ h1 h2 h => h2 (h1 h)

theorem feedSample_keepsFloor (o : Oracle) : Sound KeepsFloor (feedSample o) := by
  intro s s1 h
  by_cases h1 : o.getSampleTrackIndex = .OK
  · cases hidx : indexOfKey s.stateByTrack o.trackIndex with
    | none => simp [feedSample, h1, hidx, bind, Run.bind, call, pure] at h
    | some i =>
      simp only [feedSample, h1, hidx, bind, Run.bind, call, CHECK_EQ, pure] at h ⊢
      split_ifs at h ⊢ <;> simp_all [KeepsFloor]
  · simp only [feedSample, h1, bind, Run.bind, call, CHECK_EQ, pure] at h ⊢
    simp_all [KeepsFloor]
    subst h
    exact fun hg => hg

theorem signalInputEOS_keepsFloor (o : Oracle) (i : Nat) :
    Sound KeepsFloor (signalInputEOS o i) := by
  intro s s1 h
  unfold signalInputEOS at h ⊢
  split at h
  · simp only [Run.pure_result, Option.some.injEq] at h
    subst h
    exact keepsFloor_composable.refl _
  · simp only [bind, Run.bind, call, CHECK_EQ, pure] at h ⊢
    split_ifs at h ⊢ <;> simp only [Option.some.injEq, reduceCtorEq] at h <;>
      (subst h
       exact fun hg => hg)

theorem drainOutput_keepsFloor (cfg : Config) (o : Oracle) (i : Nat) :
    Sound KeepsFloor (drainOutput cfg o i) := by
  intro s s1 h
  unfold drainOutput at h ⊢
  split at h
  · simp only [Run.pure_result, Option.some.injEq] at h
    subst h
    exact keepsFloor_composable.refl _
  · simp only [bind, Run.bind, call, CHECK_EQ, pure] at h ⊢
    split_ifs at h ⊢ <;> simp only [Option.some.injEq, reduceCtorEq] at h <;>
      first
      | (subst h
         exact fun hg => hg)
      | (subst h
         exact fun _ => formatChanged_floored _ _)

theorem neverResets_composable : Composable NeverResets where
  refl := fun s => ⟨fun h => h, fun i key state1 h =>
    ⟨state1, h, fun h => h, fun h => h, Nat.le_refl _, Nat.le_refl _⟩⟩
  trans := by
    intro s cs s1 cs1 s2 h1 h2
    refine ⟨fun h => h2.1 (h1.1 h), ?_⟩
    intro i key state2 h
    obtain ⟨state1, hs1, a1, b1, c1, d1⟩ := h2.2 i key state2 h
    obtain ⟨state, hs, a, b, c, d⟩ := h1.2 i key state1 hs1
    exact ⟨state, hs, fun h => a1 (a h), fun h => b1 (b h), Nat.le_trans c c1,
      Nat.le_trans d d1⟩

/-- A piece that leaves the tracks alone and does not clear `sawInputEOS`. -/
theorem neverResets_same {s s1 : Pump} {cs : List Call}
    (ht : s1.stateByTrack = s.stateByTrack)
    (hs : s.sawInputEOS = true → s1.sawInputEOS = true) : NeverResets s cs s1 := by
  refine ⟨hs, ?_⟩
  intro i key state1 h
  rw [ht] at h
  exact ⟨state1, h, fun h => h, fun h => h, Nat.le_refl _, Nat.le_refl _⟩

/-- An assignment to track `i` that clears no flag and lowers no counter. -/
theorem neverResets_setState {s : Pump} {cs : List Call} {i key : Nat}
    {state state1 : CodecState} (hs : s.stateByTrack[i]? = some (key, state))
    (ha : state.mSignalledInputEOS = true → state1.mSignalledInputEOS = true)
    (hb : state.mSawOutputEOS = true → state1.mSawOutputEOS = true)
    (hc : state.mNumBuffersDecoded ≤ state1.mNumBuffersDecoded)
    (hd : state.mNumBytesDecoded ≤ state1.mNumBytesDecoded) :
    NeverResets s cs (s.setState i key state1) := by
  refine ⟨fun h => h, ?_⟩
  intro j k state2 h
  rcases setState_getElem? h with ⟨rfl, rfl, rfl⟩ | ⟨_, hj⟩
  · exact ⟨state, hs, ha, hb, hc, hd⟩
  · exact ⟨state2, hj, fun h => h, fun h => h, Nat.le_refl _, Nat.le_refl _⟩

theorem feedSample_neverResets (o : Oracle) : Sound NeverResets (feedSample o) := by
  intro s s1 h
  by_cases h1 : o.getSampleTrackIndex = .OK
  · cases hidx : indexOfKey s.stateByTrack o.trackIndex with
    | none => simp [feedSample, h1, hidx, bind, Run.bind, call, pure] at h
    | some i =>
      simp only [feedSample, h1, hidx, bind, Run.bind, call, CHECK_EQ, pure] at h ⊢
      split_ifs at h ⊢ <;> simp_all <;>
        exact neverResets_same rfl (fun h => h)
  · simp only [feedSample, h1, bind, Run.bind, call, CHECK_EQ, pure] at h ⊢
    simp_all
    subst h
    exact neverResets_same rfl (fun _ => rfl)

theorem signalInputEOS_neverResets (o : Oracle) (i : Nat) :
    Sound NeverResets (signalInputEOS o i) := by
  intro s s1 h
  unfold signalInputEOS at h ⊢
  split at h
  · simp only [Run.pure_result, Option.some.injEq] at h
    subst h
    exact neverResets_composable.refl _
  · rename_i key state heq
    simp only [bind, Run.bind, call, CHECK_EQ, pure] at h ⊢
    split_ifs at h ⊢ <;> simp_all <;>
      first
      | exact neverResets_same rfl (fun h => h)
      | (subst h
         exact neverResets_setState heq (fun _ => rfl) (fun h => h) (Nat.le_refl _)
           (Nat.le_refl _))

theorem drainOutput_neverResets (cfg : Config) (o : Oracle) (i : Nat) :
    Sound NeverResets (drainOutput cfg o i) := by
  intro s s1 h
  unfold drainOutput at h ⊢
  split at h
  · simp only [Run.pure_result, Option.some.injEq] at h
    subst h
    exact neverResets_composable.refl _
  · rename_i key state heq
    simp only [bind, Run.bind, call, CHECK_EQ, pure] at h ⊢
    split_ifs at h ⊢ <;> simp_all <;>
      first
      | exact neverResets_same rfl (fun h => h)
      | (subst h
         exact neverResets_same rfl (fun h => h))
      | (subst h
         exact neverResets_setState heq (by simp) (by simp_all) (by simp) (by simp))

/-! ### The frame-ready path -/

/-- In the repack case the frame is read after it was released, whatever the
buffer holds. -/
theorem framePath_repack_none (g : Geometry) (base : List Nat) (offset size : Nat)
    (hsize : g.frameWidth * g.frameHeight * 3 / 2 < size)
    (hpad : g.frameStride > g.frameWidth ∨ g.frameSliceHeight > g.frameHeight) :
    framePath g base offset size = none := by
  simp [framePath, malloc, store, free, deref, hsize, hpad]

/-- Outside the repack case the frame is the copy of the payload. -/
theorem framePath_copy (g : Geometry) (base : List Nat) (offset size : Nat)
    (h : ¬ (g.frameWidth * g.frameHeight * 3 / 2 < size ∧
      (g.frameStride > g.frameWidth ∨ g.frameSliceHeight > g.frameHeight))) :
    framePath g base offset size =
      some (memcpy (List.replicate size 0) 0 (base.drop offset) 0 size) := by
  have hw : ¬ ((if g.frameWidth * g.frameHeight * 3 / 2 < size
      then g.frameWidth * g.frameHeight * 3 / 2 else size) < size ∧
      (g.frameStride > g.frameWidth ∨ g.frameSliceHeight > g.frameHeight)) := by
    rintro ⟨h1, h2⟩
    apply h
    refine ⟨?_, h2⟩
    split at h1
    · assumption
    · omega
  simp only [framePath, malloc, store, free, deref]
  rw [if_neg hw]
  simp

/-! ### Track selection -/

/-- A mime string cannot start with both `audio/` and `video/`. -/
theorem not_audio_of_video (mime : List Char)
    (hv : strncasecmp mime ['v', 'i', 'd', 'e', 'o', '/'] 6 = true) :
    strncasecmp mime ['a', 'u', 'd', 'i', 'o', '/'] 6 = false := by
  cases mime with
  | nil => rfl
  | cons c r =>
    simp only [strncasecmp, Bool.and_eq_true, beq_iff_eq] at hv
    simp only [strncasecmp, Bool.and_eq_false_imp, beq_iff_eq]
    intro ha
    rw [hv.1] at ha
    exact absurd ha (by decide)

/-- The track loop only ever adds states with `mIsAudio = false`. -/
theorem selectLoop_no_audio (useAudio useVideo : Bool) (mimes : List (List Char))
    (i : Nat) (haveAudio haveVideo : Bool) (stateByTrack : List (Nat × CodecState))
    (h : ∀ p ∈ stateByTrack, p.2.mIsAudio = false) :
    ∀ p ∈ selectLoop useAudio useVideo mimes i haveAudio haveVideo stateByTrack,
      p.2.mIsAudio = false := by
  induction mimes generalizing i haveAudio haveVideo stateByTrack with
  | nil => exact h
  | cons mime rest ih =>
    simp only [selectLoop]
    split_ifs with h1 h2
    · exact ih _ _ _ _ h
    · apply ih
      intro p hp
      rw [List.mem_append, List.mem_singleton] at hp
      rcases hp with hp | rfl
      · exact h p hp
      · simp only [Bool.and_eq_true] at h2
        exact not_audio_of_video mime h2.2
    · exact ih _ _ _ _ h

/-- No audio track gets a state, whatever the flags and the tracks. -/
theorem selectTracks_no_audio (useAudio useVideo : Bool) (mimes : List (List Char)) :
    ∀ p ∈ selectTracks useAudio useVideo mimes, p.2.mIsAudio = false :=
  selectLoop_no_audio useAudio useVideo mimes 0 false false [] (by simp)

/-! ## The claims -/

/-- C1, as stated, fails: with all four geometry values 32768 and a source of
`32768 * 32768 * 3 / 2` bytes every precondition holds, and `width * height * 3`
exceeds `INT_MAX` at line 86, so the call has no defined result; with width 2,
height 2, stride 2, slice height `2 ^ 30` and a source of `3 * 2 ^ 30` bytes the
preconditions hold and `stride * sliceHeight` overflows at line 92. -/
theorem PackYUV420_luma_counterexample :
    ((32768 ≤ 32768 ∧ 32768 ≤ 32768 ∧
        32768 * 32768 * 3 / 2 ≤ (List.replicate 1610612736 0).length) ∧
      PackYUV420 32768 32768 32768 32768 (List.replicate 1610612736 0) = none) ∧
    ((2 ≤ 2 ∧ 2 ≤ 1073741824 ∧
        2 * 1073741824 * 3 / 2 ≤ (List.replicate 3221225472 0).length) ∧
      PackYUV420 2 2 2 1073741824 (List.replicate 3221225472 0) = none) := by
  refine ⟨⟨⟨by decide, by decide, by rw [List.length_replicate]⟩, by decide⟩,
    ⟨⟨by decide, by decide, by rw [List.length_replicate]⟩, by decide⟩⟩

/-- C1 (amended). Luma plane of the frame repacker: with `stride ≥ width`,
`sliceHeight ≥ height`, a source of at least `stride * sliceHeight * 3 / 2` bytes,
and no `int` overflow (`width * height * 3 ≤ INT_MAX` and
`stride * sliceHeight + stride * sliceHeight / 4 ≤ INT_MAX`), `PackYUV420` returns
a buffer `out`, and for every row `i < height` and column `j < width` the indices
`i * stride + j` and `i * width + j` are inside the source and `out`, and
`out[i * width + j] = src[i * stride + j]`: each source row is cut to its first
`width` bytes and the rows are contiguous. The byte is the same whatever the
block held when `malloc` returned it. -/
theorem PackYUV420_luma (width height stride sliceHeight : Nat) (src : List Nat)
    (hstride : width ≤ stride) (hslice : height ≤ sliceHeight)
    (hsrc : stride * sliceHeight * 3 / 2 ≤ src.length)
    (harea : width * height * 3 ≤ INT_MAX)
    (hoff : stride * sliceHeight + stride * sliceHeight / 4 ≤ INT_MAX)
    (i j : Nat) (hi : i < height) (hj : j < width) :
    ∃ out, PackYUV420 width height stride sliceHeight src = some out ∧
      i * stride + j < src.length ∧
      i * width + j < out.length ∧
      out[i * width + j]? = src[i * stride + j]? ∧
      (∀ block : List Nat, block.length = width * height * 3 / 2 →
        (packInto block width height stride sliceHeight src).bind
          (fun q => q.dst[i * width + j]?) = src[i * stride + j]?) := by
  have hrows := rows_bound_of_floor hslice hoff
  have h := packedInto_luma (List.replicate (width * height * 3 / 2) 0) width height stride
    sliceHeight src (List.length_replicate _ _) hstride hslice hsrc i j hi hj
  refine ⟨packed width height stride sliceHeight src,
    PackYUV420_eq _ _ _ _ _ harea hrows hoff, h.1, h.2.1, h.2.2, ?_⟩
  intro block hblock
  rw [packInto_eq _ _ _ _ _ _ harea hrows hoff, Option.some_bind]
  exact (packedInto_luma block width height stride sliceHeight src hblock hstride hslice
    hsrc i j hi hj).2.2

/-- C1 (amended), at the geometry of the specification: width 16, height 16,
stride 32, slice height 16, source row `i` filled with the byte `i`; byte 5 of
output row 3 is at index `3 * 16 + 5` and is the byte `3`. -/
theorem PackYUV420_luma_witness :
    (PackYUV420 16 16 32 16 ((List.range 768).map (fun k => k / 32))).bind
      (fun out => out[3 * 16 + 5]?) = some 3 := by
  obtain ⟨out, hout, _, _, hval, _⟩ :=
    PackYUV420_luma 16 16 32 16 ((List.range 768).map (fun k => k / 32))
      (by decide) (by decide) (by simp) (by decide) (by decide) 3 5 (by decide) (by decide)
  rw [hout, Option.some_bind, hval]
  simp

/-- C2, as stated, fails: with width 2, height 2, stride 2, slice height `2 ^ 30`
and a source of `3 * 2 ^ 30` bytes every precondition holds, and
`u_src_offset = stride * sliceHeight` exceeds `INT_MAX` at line 92, so the call
has no defined result; with all four values 32768 it is `width * height * 3` at
line 86 that overflows. -/
theorem PackYUV420_chroma_counterexample :
    ((2 ≤ 2 ∧ 2 ≤ 1073741824 ∧
        2 * 1073741824 * 3 / 2 ≤ (List.replicate 3221225472 0).length) ∧
      2 * 1073741824 = INT_MAX + 1 ∧
      PackYUV420 2 2 2 1073741824 (List.replicate 3221225472 0) = none) ∧
    ((32768 ≤ 32768 ∧ 32768 ≤ 32768 ∧
        32768 * 32768 * 3 / 2 ≤ (List.replicate 1610612736 0).length) ∧
      PackYUV420 32768 32768 32768 32768 (List.replicate 1610612736 0) = none) := by
  refine ⟨⟨⟨by decide, by decide, by rw [List.length_replicate]⟩, by decide, by decide⟩,
    ⟨⟨by decide, by decide, by rw [List.length_replicate]⟩, by decide⟩⟩

/-- C2 (amended). Chroma planes of the frame repacker: under the preconditions of
C1 (`stride ≥ width`, `sliceHeight ≥ height`, source of at least
`stride * sliceHeight * 3 / 2` bytes, `width * height * 3 ≤ INT_MAX` and
`stride * sliceHeight + stride * sliceHeight / 4 ≤ INT_MAX`), `PackYUV420` returns
a buffer `out`, and for every `i < height / 2` and `j < width / 2`
`out[width * height + i * (width / 2) + j] = src[stride * sliceHeight + i * (stride / 2) + j]`
(U) and, `(width * height) / 4` and `(stride * sliceHeight) / 4` further on, the
same for V; the indices are inside their buffers, and these are the bytes of the
returned buffer, so no later copy has overwritten them. The bytes are the same
whatever the block held when `malloc` returned it. -/
theorem PackYUV420_chroma (width height stride sliceHeight : Nat) (src : List Nat)
    (hstride : width ≤ stride) (hslice : height ≤ sliceHeight)
    (hsrc : stride * sliceHeight * 3 / 2 ≤ src.length)
    (harea : width * height * 3 ≤ INT_MAX)
    (hoff : stride * sliceHeight + stride * sliceHeight / 4 ≤ INT_MAX)
    (i j : Nat) (hi : i < height / 2) (hj : j < width / 2) :
    ∃ out, PackYUV420 width height stride sliceHeight src = some out ∧
      (stride * sliceHeight + (stride * sliceHeight) / 4 + i * (stride / 2) + j
          < src.length ∧
        width * height + (width * height) / 4 + i * (width / 2) + j < out.length) ∧
      out[width * height + i * (width / 2) + j]? =
        src[stride * sliceHeight + i * (stride / 2) + j]? ∧
      out[width * height + (width * height) / 4 + i * (width / 2) + j]? =
        src[stride * sliceHeight + (stride * sliceHeight) / 4 + i * (stride / 2) + j]? ∧
      (∀ block : List Nat, block.length = width * height * 3 / 2 →
        (packInto block width height stride sliceHeight src).bind
            (fun q => q.dst[width * height + i * (width / 2) + j]?) =
          src[stride * sliceHeight + i * (stride / 2) + j]? ∧
        (packInto block width height stride sliceHeight src).bind
            (fun q => q.dst[width * height + (width * height) / 4 + i * (width / 2) + j]?) =
          src[stride * sliceHeight + (stride * sliceHeight) / 4 + i * (stride / 2) + j]?) := by
  have hrows := rows_bound_of_floor hslice hoff
  have h := packedInto_chroma (List.replicate (width * height * 3 / 2) 0) width height
    stride sliceHeight src (List.length_replicate _ _) hstride hslice hsrc i j hi hj
  refine ⟨packed width height stride sliceHeight src,
    PackYUV420_eq _ _ _ _ _ harea hrows hoff, h.1, h.2.1, h.2.2, ?_⟩
  intro block hblock
  have hb := packedInto_chroma block width height stride sliceHeight src hblock hstride
    hslice hsrc i j hi hj
  rw [packInto_eq _ _ _ _ _ _ harea hrows hoff, Option.some_bind, Option.some_bind]
  exact ⟨hb.2.1, hb.2.2⟩

/-- C2 (amended), at width 4, height 4, stride 6, slice height 4 and the source
bytes `0, 1, ..., 35`: byte 1 of U row 1 is source byte `24 + 1 * 3 + 1 = 28` and
byte 1 of V row 1 is source byte `30 + 1 * 3 + 1 = 34`. -/
theorem PackYUV420_chroma_witness :
    (PackYUV420 4 4 6 4 (List.range 36)).bind
        (fun out => out[4 * 4 + 1 * (4 / 2) + 1]?) = some 28 ∧
    (PackYUV420 4 4 6 4 (List.range 36)).bind
        (fun out => out[4 * 4 + (4 * 4) / 4 + 1 * (4 / 2) + 1]?) = some 34 := by
  obtain ⟨out, hout, _, hU, hV, _⟩ := PackYUV420_chroma 4 4 6 4 (List.range 36)
    (by decide) (by decide) (by simp) (by decide) (by decide) 1 1 (by decide) (by decide)
  rw [hout, Option.some_bind, Option.some_bind, hU, hV]
  simp

/-- C4. Geometry after the format-change handler: the cache holds the reported
width and height (the old ones where the descriptor has none),
`stride = max(width, s)` with `s` the reported stride if there is one and the
width otherwise, and `sliceHeight = max(height, t)` likewise. So `stride ≥ width`
and `sliceHeight ≥ height` after every format-changed event, as in the initial
all-zero cache; a reported stride of 8 with width 16 gives stride 16; and a
descriptor with neither entry gives `stride = width`, `sliceHeight = height`. -/
theorem formatChanged_geometry (g : Geometry) (format : AMessage) :
    ((formatChanged g format).frameWidth = format.width.getD g.frameWidth ∧
      (formatChanged g format).frameHeight = format.height.getD g.frameHeight) ∧
    (formatChanged g format).frameStride =
      max (formatChanged g format).frameWidth
        (format.stride.getD (formatChanged g format).frameWidth) ∧
    (formatChanged g format).frameSliceHeight =
      max (formatChanged g format).frameHeight
        (format.sliceHeight.getD (formatChanged g format).frameHeight) ∧
    ((formatChanged g format).frameWidth ≤ (formatChanged g format).frameStride ∧
      (formatChanged g format).frameHeight ≤ (formatChanged g format).frameSliceHeight) ∧
    (Geometry.init.frameWidth ≤ Geometry.init.frameStride ∧
      Geometry.init.frameHeight ≤ Geometry.init.frameSliceHeight) ∧
    (format.width = some 16 → format.stride = some 8 →
      (formatChanged g format).frameStride = 16) ∧
    (format.stride = none → format.sliceHeight = none →
      (formatChanged g format).frameStride = (formatChanged g format).frameWidth ∧
      (formatChanged g format).frameSliceHeight = (formatChanged g format).frameHeight) := by
  obtain ⟨w, h, c, st, sh⟩ := format
  refine ⟨?_, ?_, ?_, ?_, ⟨Nat.le_refl _, Nat.le_refl _⟩, ?_, ?_⟩
  · cases w <;> cases h <;> simp [formatChanged, findInt32]
  · cases w <;> cases st <;> simp [formatChanged, findInt32] <;> split <;> omega
  · cases h <;> cases sh <;> simp [formatChanged, findInt32] <;> split <;> omega
  · constructor
    · cases w <;> cases st <;> simp [formatChanged, findInt32] <;> split <;> omega
    · cases h <;> cases sh <;> simp [formatChanged, findInt32] <;> split <;> omega
  · intro hw hs
    simp only at hw hs
    subst hw hs
    simp [formatChanged, findInt32]
  · intro hs hh
    simp only at hs hh
    subst hs hh
    simp [formatChanged, findInt32]

/-- C4, at a descriptor reporting width 16, height 16, stride 8 and no slice
height, arriving at the initial cache: stride 16, slice height 16. -/
theorem formatChanged_geometry_witness :
    (formatChanged Geometry.init
        { width := some 16, height := some 16, colorFormat := none,
          stride := some 8, sliceHeight := none }).frameStride = 16 ∧
    (formatChanged Geometry.init
        { width := some 16, height := some 16, colorFormat := none,
          stride := some 8, sliceHeight := none }).frameSliceHeight = 16 := by
  have h := formatChanged_geometry Geometry.init
    { width := some 16, height := some 16, colorFormat := none,
      stride := some 8, sliceHeight := none }
  exact ⟨h.2.2.2.2.2.1 rfl rfl, by decide⟩

/-- C5, as stated, fails: one iteration from the initial state, in which the codec
of track 0 takes a sample and hands out an EOS-flagged output buffer, ends in a
state whose only track has `mSawOutputEOS = true` and `mSignalledInputEOS = false`. -/
theorem eos_ordering_counterexample :
    (pumpLoop noSurface [earlyEOS] (Pump.init [(0, videoTrack)])).result.map
        (fun r => r.2.stateByTrack.map
          (fun p => (p.2.mSawOutputEOS, p.2.mSignalledInputEOS))) =
      some [(true, false)] := by
  decide

/-- C5 (amended). EOS ordering with a codec that flushes in order: run the pump
loop for any number of iterations from an initial state in which no track has
signalled input EOS or seen output EOS. If in the calls made an EOS-flagged output
buffer of a track is dequeued only after an EOS-flagged input buffer was queued on
that track, then in the state reached every track with `mSawOutputEOS` has
`mSignalledInputEOS`. -/
theorem eos_ordering_fifo (cfg : Config) (os : List Oracle)
    (tracks : List (Nat × CodecState))
    (hinit : ∀ p ∈ tracks, p.2.mSignalledInputEOS = false ∧ p.2.mSawOutputEOS = false)
    (hfifo : codecFIFO (fun _ => false) (pumpLoop cfg os (Pump.init tracks)).calls = true)
    (done : Bool) (s1 : Pump)
    (hrun : (pumpLoop cfg os (Pump.init tracks)).result = some (done, s1)) :
    ∀ p ∈ s1.stateByTrack, p.2.mSawOutputEOS = true → p.2.mSignalledInputEOS = true := by
  have h0 : EosOrdered (fun _ => false) (Pump.init tracks) := by
    intro i key state h
    have hm : (key, state) ∈ tracks := List.mem_iff_getElem?.mpr ⟨i, h⟩
    have := hinit _ hm
    simp_all
  have h1 := pumpLoop_keepsEosOrder cfg os _ done s1 hrun _ h0 hfifo
  intro p hp
  obtain ⟨i, hi⟩ := List.mem_iff_getElem?.mp hp
  exact (h1 i p.1 p.2 hi).1

/-- C5 (amended), at a run of three iterations on one track: the extractor is
exhausted; input EOS is queued and the EOS-only output buffer comes back; the loop
ends. The calls are in FIFO order and the track ends with both flags set. -/
theorem eos_ordering_fifo_witness :
    codecFIFO (fun _ => false)
        (pumpLoop noSurface [idle, flush, idle] (Pump.init [(0, videoTrack)])).calls = true ∧
    (pumpLoop noSurface [idle, flush, idle] (Pump.init [(0, videoTrack)])).result =
      some (true, completed 1 0) ∧
    (completed 1 0).stateByTrack.all
      (fun p => !p.2.mSawOutputEOS || p.2.mSignalledInputEOS) = true := by
  refine ⟨by decide, by decide, ?_⟩
  have h := eos_ordering_fifo noSurface [idle, flush, idle] [(0, videoTrack)]
    (by decide) (by decide) true (completed 1 0) (by decide)
  rw [List.all_eq_true]
  intro p hp
  cases hs : p.2.mSawOutputEOS with
  | false => rfl
  | true => simp [h p hp hs]

/-- C6, as stated, fails: an iteration in which `readSampleData` fails aborts,
and no codec primitive called in it answers outside its handled set (the only
codec call is `dequeueInputBuffer`, answering `OK`). -/
theorem iteration_abort_counterexample :
    (iteration noSurface readFails (Pump.init [(0, videoTrack)])).result = none ∧
    (iteration noSurface readFails (Pump.init [(0, videoTrack)])).calls =
      [.getSampleTrackIndex .OK, .dequeueInputBuffer 0 .OK, .readSampleData (.other (-1))] ∧
    (iteration noSurface readFails (Pump.init [(0, videoTrack)])).calls.any
      Call.codecUnhandled = false := by
  decide

/-- C6 (amended). A pump iteration aborts if and only if one of the calls it makes
is fatal, that is, a codec primitive answers outside its handled set or a source
call does (`readSampleData` or `getSampleTime` other than `OK`, or the sample's
track has no state); the fatal call is the last call of the iteration. `-EAGAIN`
from either dequeue call, `INFO_OUTPUT_BUFFERS_CHANGED` and `INFO_FORMAT_CHANGED`
are not fatal. -/
theorem iteration_aborts_iff (cfg : Config) (o : Oracle) (s : Pump) :
    ((iteration cfg o s).result = none ↔
      ∃ c ∈ (iteration cfg o s).calls, c.fatal = true) ∧
    (∀ pre c post, (iteration cfg o s).calls = pre ++ c :: post → c.fatal = true →
      post = []) ∧
    (∀ c : Call, c.fatal = (c.codecUnhandled || c.sourceUnhandled)) ∧
    (∀ i size eos,
      (Call.dequeueInputBuffer i .EAGAIN).fatal = false ∧
      (Call.dequeueOutputBuffer i .EAGAIN size eos).fatal = false ∧
      (Call.dequeueOutputBuffer i .INFO_OUTPUT_BUFFERS_CHANGED size eos).fatal = false ∧
      (Call.dequeueOutputBuffer i .INFO_FORMAT_CHANGED size eos).fatal = false) := by
  have hlog := iteration_logsAbort cfg o s
  have hiff : (iteration cfg o s).result = none ↔
      ∃ c ∈ (iteration cfg o s).calls, c.fatal = true := by
    constructor
    · intro h
      exact endsFatal_mem (hlog.2 h)
    · rintro ⟨c, hc, hf⟩
      by_contra hne
      have := noFatal_mem (hlog.1 hne) hc
      rw [this] at hf
      exact Bool.false_ne_true hf
  refine ⟨hiff, ?_, ?_, ?_⟩
  · intro pre c post hcalls hf
    have hmem : c ∈ (iteration cfg o s).calls := by
      rw [hcalls]
      simp
    have hnone := hiff.mpr ⟨c, hmem, hf⟩
    have hends := hlog.2 hnone
    rw [hcalls] at hends
    exact endsFatal_last hends hf
  · intro c
    cases c <;> simp [Call.fatal, Call.codecUnhandled, Call.sourceUnhandled]
  · intro i size eos
    simp [Call.fatal]

/-- C7. Would-block has no effect: when the dequeue call of a step answers
`-EAGAIN`, the step does not abort and leaves the whole pump state as it was: the
counters and flags of the track, the states of the other tracks, the geometry
cache. This holds for the sample-feeding step (lines 215-246), the
input-EOS step of track `i` (lines 250-273) and the output step of track `i`
(lines 291-421). -/
theorem would_block_no_effect (cfg : Config) (o : Oracle) (i : Nat) (s : Pump) :
    (o.getSampleTrackIndex = .OK → indexOfKey s.stateByTrack o.trackIndex = some i →
      o.dequeueInputBuffer i = .EAGAIN → (feedSample o s).result = some s) ∧
    (o.dequeueInputBuffer i = .EAGAIN → (signalInputEOS o i s).result = some s) ∧
    (o.dequeueOutputBuffer i = .EAGAIN → (drainOutput cfg o i s).result = some s) := by
  refine ⟨?_, ?_, ?_⟩
  · intro h1 hidx h2
    simp [feedSample, h1, hidx, h2, bind, Run.bind, call, CHECK_EQ, pure]
  · intro h2
    unfold signalInputEOS
    split
    · rfl
    · simp only [bind, Run.bind, call, CHECK_EQ, pure, h2]
      split_ifs <;> simp_all
  · intro h2
    unfold drainOutput
    split
    · rfl
    · simp only [bind, Run.bind, call, CHECK_EQ, pure, h2]
      split_ifs <;> simp_all

/-- C7, at an iteration in which both dequeue calls answer `-EAGAIN`, on a pump
with one track that has already seen input exhaustion: the input-EOS step and the
output step of track 0 leave the state as it was. -/
theorem would_block_no_effect_witness :
    (signalInputEOS idle 0 { Pump.init [(0, videoTrack)] with sawInputEOS := true }).result =
      some { Pump.init [(0, videoTrack)] with sawInputEOS := true } ∧
    (drainOutput noSurface idle 0
        { Pump.init [(0, videoTrack)] with sawInputEOS := true }).result =
      some { Pump.init [(0, videoTrack)] with sawInputEOS := true } :=
  ⟨(would_block_no_effect noSurface idle 0 _).2.1 rfl,
    (would_block_no_effect noSurface idle 0 _).2.2 rfl⟩

/-- C8, as stated, fails: a run on one track that decodes one 12-byte buffer and
then receives the EOS-only buffer reaches global completion with
`mNumBuffersDecoded = 2`, while one output buffer was dequeued when the EOS-only
buffer is left out. -/
theorem framesDecoded_counterexample :
    (pumpLoop noSurface [decodeOne, idle, flush, idle] (Pump.init [(0, videoTrack)])).result =
      some (true, completed 2 12) ∧
    (pumpLoop noSurface [decodeOne, idle, flush, idle]
      (Pump.init [(0, videoTrack)])).calls.countP (Call.outputsData 0) = 1 := by
  decide

/-- C8 (amended). The frame counter counts every dequeued output buffer: for every
run of the pump that reaches global completion from tracks whose counters are
zero, every track is still in place and its `mNumBuffersDecoded` is the number of
`dequeueOutputBuffer` calls for that track that answered `OK`, the zero-size and
EOS-only buffers among them. -/
theorem framesDecoded_counts_outputs (cfg : Config) (os : List Oracle)
    (tracks : List (Nat × CodecState))
    (hzero : ∀ p ∈ tracks, p.2.mNumBuffersDecoded = 0) (s1 : Pump)
    (hrun : (pumpLoop cfg os (Pump.init tracks)).result = some (true, s1)) :
    ∀ i key state0, tracks[i]? = some (key, state0) →
      ∃ state, s1.stateByTrack[i]? = some (key, state) ∧
        state.mNumBuffersDecoded =
          (pumpLoop cfg os (Pump.init tracks)).calls.countP (Call.outputsBuffer i) := by
  have h := pumpLoop_countsBuffers cfg os _ true s1 hrun
  intro i key state0 hi
  have hlen : i < s1.stateByTrack.length := by
    rw [h.1]
    exact (List.getElem?_eq_some_iff.mp hi).1
  obtain ⟨state, hs, hc⟩ := h.2 i (s1.stateByTrack[i]).1 (s1.stateByTrack[i]).2
    (List.getElem?_eq_getElem hlen)
  have hs1 : tracks[i]? = some ((s1.stateByTrack[i]).1, state) := hs
  rw [hi] at hs1
  simp only [Option.some.injEq, Prod.mk.injEq] at hs1
  refine ⟨(s1.stateByTrack[i]).2, ?_, ?_⟩
  · rw [List.getElem?_eq_getElem hlen, hs1.1]
  · have hm : (key, state0) ∈ tracks := List.mem_iff_getElem?.mpr ⟨i, hi⟩
    have hz := hzero _ hm
    rw [hc, ← hs1.2, hz, Nat.zero_add]

/-- C8 (amended), at the run that decodes one 12-byte buffer and then receives the
EOS-only buffer: two output buffers were dequeued for track 0 and its
`mNumBuffersDecoded` is 2. -/
theorem framesDecoded_counts_outputs_witness :
    (pumpLoop noSurface [decodeOne, idle, flush, idle] (Pump.init [(0, videoTrack)])).result =
      some (true, completed 2 12) ∧
    (pumpLoop noSurface [decodeOne, idle, flush, idle]
      (Pump.init [(0, videoTrack)])).calls.countP (Call.outputsBuffer 0) = 2 := by
  have hrun : (pumpLoop noSurface [decodeOne, idle, flush, idle]
      (Pump.init [(0, videoTrack)])).result = some (true, completed 2 12) := by decide
  obtain ⟨state, hs, hc⟩ := framesDecoded_counts_outputs noSurface
    [decodeOne, idle, flush, idle] [(0, videoTrack)] (by decide) (completed 2 12) hrun
    0 0 videoTrack rfl
  have hst : state = finishedTrack 2 12 := by
    simp [completed] at hs
    exact hs.symm
  rw [hst] at hc
  exact ⟨hrun, hc.symm⟩

/-- C9, where the code fails it: with the cached geometry width 2, height 2,
stride 4, slice height 2 and an output buffer of 12 bytes `0, ..., 11` (offset 0,
size 12), the frame is repacked (`2 * 2 * 3 / 2 = 6 < 12`, stride above width), and
`PackYUV420` is given the transient copy after `free(frame)`: its source is
released storage, and the output step of the track pushes a frame read from it.
The claim has the repacker read the live copy and hand
`PackYUV420(2, 2, 4, 2, payload) = 0, 1, 4, 5, 8, 10` to the sink. -/
theorem framePath_repack_reads_released :
    framePath padded (List.range 12) 0 12 = none ∧
    (drainOutput noSurface decodeOne 0
        { stateByTrack := [(0, videoTrack)], sawInputEOS := false, geom := padded }).calls =
      [.dequeueOutputBuffer 0 .OK 12 false, .opengl_manager_push_data none,
        .releaseOutputBuffer 0 false .OK] ∧
    PackYUV420 2 2 4 2 (((List.range 12).drop 0).take 12) = some [0, 1, 4, 5, 8, 10] := by
  decide

/-- C10, where the code fails it: with both `useAudio` and `useVideo` set and the
tracks `audio/mp4a-latm`, `video/avc`, only track 1 (the video track) gets a state;
the audio track sets `haveAudio` and leaves the loop body by `continue`. With
`useAudio` alone no track gets one. -/
theorem selectTracks_skips_audio :
    selectTracks true true
        ["audio/mp4a-latm".toList, "video/avc".toList] = [(1, videoTrack)] ∧
    selectTracks true false ["audio/mp4a-latm".toList, "video/avc".toList] = [] := by
  decide

/-- The floor of the geometry cache is an invariant of the pump loop: in every
state the loop reaches from its initial state, after any number of iterations,
`frameStride ≥ frameWidth` and `frameSliceHeight ≥ frameHeight`. -/
theorem geometry_floor_invariant (cfg : Config) (os : List Oracle)
    (tracks : List (Nat × CodecState)) (done : Bool) (s1 : Pump)
    (hrun : (pumpLoop cfg os (Pump.init tracks)).result = some (done, s1)) :
    s1.geom.frameWidth ≤ s1.geom.frameStride ∧
    s1.geom.frameHeight ≤ s1.geom.frameSliceHeight :=
  pumpLoop_sound keepsFloor_composable cfg feedSample_keepsFloor
    signalInputEOS_keepsFloor (drainOutput_keepsFloor cfg) os _ done s1 hrun
    ⟨Nat.le_refl _, Nat.le_refl _⟩

/-- The geometry floor, at a run of one iteration in which the codec announces
width 16, height 16 and stride 8: the cache then holds stride 16, slice height 16. -/
theorem geometry_floor_invariant_witness :
    (pumpLoop noSurface [formatChange] (Pump.init [(0, videoTrack)])).result =
      some (false, { stateByTrack := [(0, videoTrack)], sawInputEOS := true,
                     geom := { frameWidth := 16, frameHeight := 16, frameColorFormat := 0,
                               frameStride := 16, frameSliceHeight := 16 } }) ∧
    (16 ≤ 16 ∧ 16 ≤ 16) := by
  have hrun : (pumpLoop noSurface [formatChange] (Pump.init [(0, videoTrack)])).result =
      some (false, { stateByTrack := [(0, videoTrack)], sawInputEOS := true,
                     geom := { frameWidth := 16, frameHeight := 16, frameColorFormat := 0,
                               frameStride := 16, frameSliceHeight := 16 } }) := by
    decide
  exact ⟨hrun, geometry_floor_invariant noSurface [formatChange] [(0, videoTrack)] false _ hrun⟩

/-- Flags are set once and counters only grow: over any number of iterations of
the pump loop that do not abort, `sawInputEOS` is not cleared, every track stays
at its position with its key, `mSignalledInputEOS` and `mSawOutputEOS` are not
cleared, and `mNumBuffersDecoded` and `mNumBytesDecoded` do not decrease. -/
theorem flags_and_counters_monotone (cfg : Config) (os : List Oracle) (s : Pump)
    (done : Bool) (s1 : Pump) (hrun : (pumpLoop cfg os s).result = some (done, s1)) :
    (s.sawInputEOS = true → s1.sawInputEOS = true) ∧
    ∀ (i key : Nat) (state1 : CodecState), s1.stateByTrack[i]? = some (key, state1) →
      ∃ state : CodecState, s.stateByTrack[i]? = some (key, state) ∧
        (state.mSignalledInputEOS = true → state1.mSignalledInputEOS = true) ∧
        (state.mSawOutputEOS = true → state1.mSawOutputEOS = true) ∧
        state.mNumBuffersDecoded ≤ state1.mNumBuffersDecoded ∧
        state.mNumBytesDecoded ≤ state1.mNumBytesDecoded :=
  pumpLoop_sound neverResets_composable cfg feedSample_neverResets signalInputEOS_neverResets
    (drainOutput_neverResets cfg) os s done s1 hrun

/-- NeverResets counters, at the run that decodes one 12-byte buffer and then
receives the EOS-only buffer: the counters of track 0 go from 0 to 2 buffers and
from 0 to 12 bytes. -/
theorem flags_and_counters_monotone_witness :
    (pumpLoop noSurface [decodeOne, idle, flush, idle] (Pump.init [(0, videoTrack)])).result =
      some (true, completed 2 12) ∧
    videoTrack.mNumBuffersDecoded ≤ (finishedTrack 2 12).mNumBuffersDecoded ∧
    videoTrack.mNumBytesDecoded ≤ (finishedTrack 2 12).mNumBytesDecoded := by
  have hrun : (pumpLoop noSurface [decodeOne, idle, flush, idle]
      (Pump.init [(0, videoTrack)])).result = some (true, completed 2 12) := by decide
  obtain ⟨state, hs, _, _, hc, hd⟩ := (flags_and_counters_monotone noSurface
    [decodeOne, idle, flush, idle] (Pump.init [(0, videoTrack)]) true (completed 2 12)
    hrun).2 0 0 (finishedTrack 2 12) rfl
  have hst : state = videoTrack := by
    simp [Pump.init] at hs
    exact hs.symm
  rw [hst] at hc hd
  exact ⟨hrun, hc, hd⟩

end Codec
